import Mathlib

/-!
# jerry-curl: a shallow embedding of `jerry-curl.go`

The development models the four pure pieces of the wrapper

* `argClash`   (collision detection on the raw argument list),
* `parseArgs`  (partition into wrapper options keyed by position and pass-through tokens),
* `readConfig` (line parser of the configuration file),
* `genCurlCmd` (assembly of the curl argument vector),

together with `main`, which glues them together, and the two functions `curlCheck` and
`createConfig` that `main` calls first.

Modelling conventions.

* The calls of `main` into the operating system (`exec.LookPath`, `os.Getenv`, `os.Stat`,
  `os.Mkdir`, `ioutil.WriteFile`, `os.Open`, `cmd.Start`) are recorded as a list of `Event`s;
  their answers are the fields of `Env`.  Standard output is kept only as the text of the
  step that exits.

* A Go `string` is a Lean `String`, read as its list of characters.  Every byte-level
  operation of the source is applied to ASCII patterns only (`"-c"`, `"BASE="`, byte `45`,
  `"\n"`, ...), where it coincides with the character-level operation used here.
* `os.Exit(0)` after printing is the outcome `Outcome.exit out`, where `out` is the text
  written to standard output; a runtime index-out-of-range failure is `Outcome.panic`.
* A Go `map[int]string` is the list of its `(key, value)` entries.  Go iterates a map in an
  unspecified order, so every function that ranges over the map takes the entries in the
  order of iteration, and statements about it quantify over all permutations.
-/

namespace JerryCurl

/-! ## Outcomes -/

/-- What a call of a Go function that may leave through `os.Exit` does. -/
inductive Outcome (α : Type) where
  /-- the function returns a value to its caller -/
  | ret (a : α) : Outcome α
  /-- the process ends through `os.Exit(0)` after writing `out` to standard output -/
  | exit (out : String) : Outcome α
  /-- the process dies with a runtime panic (index out of range) -/
  | panic : Outcome α
  deriving DecidableEq

/-! ## The functions of package `strings` used by the source -/

/-- Scan for `strings.Index`: position (counted from `k`) of the first place where `sub`
starts in the remaining text, `-1` when there is none. -/
def indexFrom (sub : List Char) : List Char → Nat → Int
  | [], k => if sub.isPrefixOf [] then (k : Int) else -1
  | c :: cs, k => if sub.isPrefixOf (c :: cs) then (k : Int) else indexFrom sub cs (k + 1)

/-- Go `strings.Index(s, sub)`. -/
def stringsIndex (s sub : String) : Int := indexFrom sub.data s.data 0

/-- Go `strings.Contains(s, sub)`, which is `Index(s, sub) >= 0`. -/
def stringsContains (s sub : String) : Bool := decide (0 ≤ stringsIndex s sub)

/-- Go `strings.TrimLeft(s, cutset)`: drop every leading character that occurs in `cutset`. -/
def stringsTrimLeft (s cutset : String) : String :=
  ⟨s.data.dropWhile (fun c => cutset.data.contains c)⟩

/-- Go `strings.TrimRight(s, cutset)`: drop every trailing character that occurs in `cutset`. -/
def stringsTrimRight (s cutset : String) : String :=
  ⟨s.data.rdropWhile (fun c => cutset.data.contains c)⟩

/-- Go `strings.Join(elems, sep)`. -/
def stringsJoin (elems : List String) (sep : String) : String := sep.intercalate elems

/-- Go slice expression `s[i:]` on a string. -/
def sliceFrom (s : String) (i : Nat) : String := ⟨s.data.drop i⟩

/-- Go slice expression `args[lo:hi]` on a slice of strings (for `lo ≤ hi ≤ len(args)`). -/
def sliceArgs (args : List String) (lo hi : Nat) : List String := (args.drop lo).take (hi - lo)

/-! ## `argClash` -/

/-- The six counters of `argClash`. -/
structure Counts where
  countConfig : Nat
  countC : Nat
  countShow : Nat
  countS : Nat
  countUrl : Nat
  countU : Nat
  deriving DecidableEq

/-- One round of the counting loop of `argClash` (the `switch arg`). -/
def argClashCount (c : Counts) (arg : String) : Counts :=
  if arg = "--config" then { c with countConfig := c.countConfig + 1 }
  else if arg = "-c" then { c with countC := c.countC + 1 }
  else if arg = "--show" then { c with countShow := c.countShow + 1 }
  else if arg = "-s" then { c with countS := c.countS + 1 }
  else if arg = "--url-path" then { c with countUrl := c.countUrl + 1 }
  else if arg = "-u" then { c with countU := c.countU + 1 }
  else c

/-- One guarded block `if cond { message += a; message += b }` of `argClash`. -/
def addIf (cond : Bool) (message a b : String) : String :=
  if cond then (message ++ a) ++ b else message

/-- The message `argClash` has built when it reaches its final test. -/
def argClashMessage (c : Counts) : String :=
  let message := "Error(s):"
  let message := addIf (decide (c.countConfig ≥ 2)) message
    "\n\t* Option --config used twice and is ambiguous."
    "\n\t  If you want the curl version, use -K instead"
  let message := addIf (decide (c.countC ≥ 2)) message
    "\n\t* Option -c used twice and is ambiguous."
    "\n\t  If you want the curl version, use --cookie-jar <file name> instead"
  let message := addIf (decide (c.countS ≥ 2)) message
    "\n\t* Option -s used twice and is ambiguous."
    "\n\t  If you want the curl version, use --silent instead"
  let message := addIf (decide (c.countU ≥ 2)) message
    "\n\t* Option -u used twice and is ambiguous."
    "\n\t  If you want the curl version, use --user <user:password> instead"
  let message := addIf (decide (c.countConfig ≥ 1) && decide (c.countC ≥ 1)) message
    "\n\t* Both option --config and -c used and is ambiguous."
    "\n\t  jerry-curl accepts either --config OR -c but not both"
  let message := addIf (decide (c.countShow ≥ 1) && decide (c.countS ≥ 1)) message
    "\n\t* Both option --show and -s used and is ambiguous."
    "\n\t  jerry-curl accepts either --show OR -s but not both"
  let message := addIf (decide (c.countUrl ≥ 1) && decide (c.countU ≥ 1)) message
    "\n\t* Both option --url-path and -u used and is ambiguous."
    "\n\t  jerry-curl accepts either --url-path OR -u but not both"
  message

/-- The counters after the loop `for _, arg := range args`. -/
def argClashCounts (args : List String) : Counts :=
  args.foldl argClashCount ⟨0, 0, 0, 0, 0, 0⟩

/-- Go `argClash(args)`: returns, or prints the collected message and exits. -/
def argClash (args : List String) : Outcome Unit :=
  let message := argClashMessage (argClashCounts args)
  if message.length > 9 then Outcome.exit (message ++ "\n") else Outcome.ret ()

/-! ## `parseArgs` -/

/-- Go map assignment `m[k] = v` on the entry list of a `map[int]string`. -/
def mapSet (m : List (Nat × String)) (k : Nat) (v : String) : List (Nat × String) :=
  if m.any (fun e => e.1 = k) then m.map (fun e => if e.1 = k then (k, v) else e)
  else m ++ [(k, v)]

/-- The local variables of `parseArgs` that live across loop rounds. -/
structure ParseState where
  jerryArgs : List (Nat × String)
  curlArgs : List String
  skip : Bool
  next : String
  deriving DecidableEq

/-- Text printed by the `-c`/`--config` error branch of `parseArgs`. -/
def configErr (arg : String) : String :=
  "Error:\n" ++ (" jerry-curl's " ++ arg ++ " option requires an agrument\n") ++
    (" such as " ++ arg ++ " ./path/to/config\n\n")

/-- Text printed by the `-u`/`--url-path` error branch of `parseArgs`. -/
def urlErr (arg : String) : String :=
  "Error:\n" ++ (" jerry-curl's " ++ arg ++ " option requires an agrument\n") ++
    (" such as " ++ arg ++ " /path/to/add/to/url\n\n")

/-- Text printed by `printHelp` before it exits. -/
def printHelp : String :=
  "Usage: jerry-curl [-h|--help]\n" ++
  "   or: jerry-curl [jerry-curl options] [optional arguments for curl]\n" ++
  "\n" ++
  " jerry-curl is a wrapper for the curl command which adds \n" ++
  " options from a configuration file and the command line\n" ++
  " allowing for short repeated curl calls.\n" ++
  "\n" ++
  " jerry-curl works by calling curl like the below:\n" ++
  "  curl [config options] [BASE][URLPATH] [command-line arguments]\n" ++
  "\n" ++
  " jerry-curl commandline options:\n" ++
  "   -c, --config FILE         Select a different config file from the default\n" ++
  "                             which is $HOME/.jerry-curl/jerry-curl.config\n" ++
  "                               Example: jerry-curl --config=./my-custom-config\n" ++
  "   -s, --show                Show the curl command - DO NOT EXECUTE IT\n" ++
  "   -u, --url-path URLPATH    Set a path to append to the base URL\n" ++
  "                               Example: jerry-curl --url-path=/app/path/here\n" ++
  "   -h, --help                help, aka this message\n" ++
  "\n" ++
  "    Note: options --config, -c, -s -u are used by both jerry-curl and curl.  If\n" ++
  "    You want those sent to curl, please use their alternate forms.  Using --show\n" ++
  "    can help diagose if jerry-curl or curl is recieving a command-line option\n" ++
  "\n" ++
  " If no config file exists, one will be created with commented examples in directory named \n" ++
  " .jerry-curl in your home directory when jerry-curl is run for the first time.\n" ++
  "\n"

/-- The shared body of the two value-taking cases of `parseArgs`
(`-c`/`--config` and `-u`/`--url-path`), which differ only in the text they print:
the length test, the slice `args[n+1:n+2]`, the test `missing || next[0] == 45`
(a panic when `next` is empty), then `jerryArgs[n] = arg + " " + next` and `skip = true`. -/
def parseValueOption (errText : String → String) (args : List String) (n : Nat) (arg : String)
    (st : ParseState) : Outcome ParseState :=
  let missing : Bool := decide (args.length < n + 2)
  let next : String := if missing then st.next else stringsJoin (sliceArgs args (n + 1) (n + 2)) ""
  if missing then Outcome.exit (errText arg)
  else
    match next.data with
    | [] => Outcome.panic
    | c :: _ =>
      if c.toNat = 45 then Outcome.exit (errText arg)
      else Outcome.ret
        { st with jerryArgs := mapSet st.jerryArgs n (arg ++ " " ++ next), skip := true, next := next }

/-- One round of the loop `for n, arg := range args` of `parseArgs` (the `switch arg`). -/
def parseStep (args : List String) (n : Nat) (arg : String) (st : ParseState) :
    Outcome ParseState :=
  if arg = "-c" ∨ arg = "--config" then parseValueOption configErr args n arg st
  else if arg = "-s" ∨ arg = "--show" then
    Outcome.ret { st with jerryArgs := mapSet st.jerryArgs n arg }
  else if arg = "-u" ∨ arg = "--url-path" then parseValueOption urlErr args n arg st
  else if arg = "-h" ∨ arg = "--help" then Outcome.exit printHelp
  else if st.skip = false then Outcome.ret { st with curlArgs := st.curlArgs ++ [arg] }
  else Outcome.ret { st with skip := false }

/-- The loop of `parseArgs` over the tokens still to visit, `n` being the index of the first. -/
def parseLoop (args : List String) : List String → Nat → ParseState → Outcome ParseState
  | [], _, st => Outcome.ret st
  | arg :: rest, n, st =>
    match parseStep args n arg st with
    | Outcome.ret st1 => parseLoop args rest (n + 1) st1
    | Outcome.exit out => Outcome.exit out
    | Outcome.panic => Outcome.panic

/-- Go `parseArgs(args)`: the wrapper options keyed by position and the pass-through list. -/
def parseArgs (args : List String) : Outcome (List (Nat × String) × List String) :=
  match parseLoop args args 0 ⟨[], [], true, ""⟩ with
  | Outcome.ret st => Outcome.ret (st.jerryArgs, st.curlArgs)
  | Outcome.exit out => Outcome.exit out
  | Outcome.panic => Outcome.panic

/-! ## `readConfig` -/

/-- Go `reader.ReadString('\n')` on the unread text: the line read (delimiter included),
whether `err == nil` (false at end of file, where the text read so far is returned with
`io.EOF`), and the text left unread. -/
def readString : List Char → (List Char × Bool) × List Char
  | [] => (([], false), [])
  | c :: cs =>
    if c = '\n' then ((['\n'], true), cs)
    else ((c :: (readString cs).1.1, (readString cs).1.2), (readString cs).2)

/-- Body of the loop of `readConfig` for one line: comment lines are skipped, a line that
starts with `BASE=` sets `base`, any other line is appended to `extras`. -/
def readConfigLine (st : String × List String) (line : String) : String × List String :=
  if stringsIndex line "#" ≠ 0 then
    let n := stringsIndex line "BASE="
    if n = 0 then (stringsTrimRight (sliceFrom line (n + 5).toNat) "\n", st.2)
    else (st.1, st.2 ++ [stringsTrimRight line "\n"])
  else st

/-- The loop `for err == nil` of `readConfig`, with `fuel` bounding the number of reads. -/
def readConfigLoop : Nat → List Char → String × List String → Option (String × List String)
  | 0, _, _ => none
  | fuel + 1, unread, st =>
    match readString unread with
    | ((line, true), rest) => readConfigLoop fuel rest (readConfigLine st ⟨line⟩)
    | ((_, false), _) => some st

/-- Go `readConfig`, from the point where the configuration file has been opened: `text` is
the content of the file; the result is `(base, extras)`.  Reading from the text ends only
with `io.EOF`, so the final test `err != io.EOF` never fires.  One read per character plus
one is always enough fuel (`readConfig_total`). -/
def readConfig (text : String) : Option (String × List String) :=
  readConfigLoop (text.data.length + 1) text.data ("", [])

/-! ## `genCurlCmd` -/

/-- One round of the loop `for _, arg := range jerry` of `genCurlCmd` on `(show, path)`.
The first assignment to `path` is overwritten by the second, as in the source. -/
def genCurlStep (st : Bool × String) (arg : String) : Bool × String :=
  let showOnly : Bool :=
    if stringsIndex arg "--show" = 0 ∨ stringsIndex arg "-s" = 0 then true else st.1
  let path : String :=
    if stringsIndex arg "--url-path" = 0 ∨ stringsIndex arg "-u" = 0 then
      let _path := stringsTrimLeft arg "--url-path "
      stringsTrimLeft arg "-u "
    else st.2
  (showOnly, path)

/-- One round of the loop `for _, item := range curl[:]` of `genCurlCmd`. -/
def quoteStep (sCurl : List String) (item : String) : List String :=
  if 0 ≤ stringsIndex item "\"" then sCurl ++ ["'" ++ item ++ "'"] else sCurl ++ [item]

/-- Go `genCurlCmd(jerry, curl, base)`; `jerry` lists the map entries in iteration order.
The result is the command and the show-only flag.  The diagnostic line the function prints
(`URL in method =...`) does not influence the result and is left out. -/
def genCurlCmd (jerry : List (Nat × String)) (curl : List String) (base : String) :
    List String × Bool :=
  let st := jerry.foldl (fun st e => genCurlStep st e.2) (false, "")
  let sCurl := curl.foldl quoteStep []
  let url := base ++ st.2
  (sCurl ++ [url], st.1)

/-! ## The fragments of `main` between `parseArgs` and the execution of curl -/

/-- The loop of `main` that looks for an alternate configuration file; `jerryArgs` lists the
map entries in iteration order.  The result is `newConfig`. -/
def mainNewConfig (jerryArgs : List (Nat × String)) : String :=
  jerryArgs.foldl
    (fun newConfig e =>
      if stringsContains e.2 "--config" ∨ stringsContains e.2 "-c" then
        sliceFrom e.2 (stringsIndex e.2 " " + 1).toNat
      else newConfig)
    ""

/-- The statement `finalCmd := append(extraArgs, curlCmd...)` of `main`. -/
def mainFinalCmd (extraArgs curlCmd : List String) : List String := extraArgs ++ curlCmd

/-! ## Specification-side notions -/

/-- The condition under which `argClash` prints its message and exits, in terms of the
number of occurrences of each spelling. -/
def clashes (args : List String) : Prop :=
  2 ≤ args.count "--config" ∨ 2 ≤ args.count "-c" ∨ 2 ≤ args.count "-s" ∨
    2 ≤ args.count "-u" ∨ (1 ≤ args.count "--config" ∧ 1 ≤ args.count "-c") ∨
    (1 ≤ args.count "--show" ∧ 1 ≤ args.count "-s") ∨
    (1 ≤ args.count "--url-path" ∧ 1 ≤ args.count "-u")

/-- The spellings of the config-path option. -/
def isConfigOpt (a : String) : Bool := decide (a = "-c" ∨ a = "--config")

/-- The spellings of the url-suffix option. -/
def isUrlOpt (a : String) : Bool := decide (a = "-u" ∨ a = "--url-path")

/-- The spellings of the show-only option. -/
def isShowOpt (a : String) : Bool := decide (a = "-s" ∨ a = "--show")

/-- The spellings of the help option. -/
def isHelpOpt (a : String) : Bool := decide (a = "-h" ∨ a = "--help")

/-- The four spellings that take one mandatory value. -/
def isValueOpt (a : String) : Bool := isConfigOpt a || isUrlOpt a

/-- The six wrapper option spellings `-c`, `--config`, `-s`, `--show`, `-u`, `--url-path`. -/
def isWrapperOpt (a : String) : Bool := isValueOpt a || isShowOpt a

/-- The first character of the token is `-`. -/
def startsWithDash (t : String) : Bool := decide (t.data.head? = some '-')

/-- The requires-an-argument text printed for a value-taking spelling. -/
def requiresArgErr (arg : String) : String :=
  if isConfigOpt arg then configErr arg else urlErr arg

/-- The loop of `parseArgs` written with the lookahead taken from the tokens still to
visit instead of from the whole argument list; `parseLoop_eq_parseLoopL` shows that it
is the same function on every suffix of `args`. -/
def parseLoopL : List String → Nat → ParseState → Outcome ParseState
  | [], _, st => Outcome.ret st
  | arg :: rest, n, st =>
    if isValueOpt arg then
      match rest with
      | [] => Outcome.exit (requiresArgErr arg)
      | t :: _ =>
        if t.data = [] then Outcome.panic
        else if startsWithDash t then Outcome.exit (requiresArgErr arg)
        else parseLoopL rest (n + 1)
          { st with jerryArgs := mapSet st.jerryArgs n (arg ++ " " ++ t), skip := true, next := t }
    else if isShowOpt arg then
      parseLoopL rest (n + 1) { st with jerryArgs := mapSet st.jerryArgs n arg }
    else if isHelpOpt arg then Outcome.exit printHelp
    else if st.skip = false then parseLoopL rest (n + 1) { st with curlArgs := st.curlArgs ++ [arg] }
    else parseLoopL rest (n + 1) { st with skip := false }

/-- The wrapper options found in the tokens `rest`, the first of which has index `n`: one
entry per option token, a value-taking option joined with the token after it. -/
def jerryFrom : List String → Nat → List (Nat × String)
  | [], _ => []
  | arg :: rest, n =>
    (if isValueOpt arg then [(n, arg ++ " " ++ rest.headD "")]
     else if isShowOpt arg then [(n, arg)] else []) ++ jerryFrom rest (n + 1)

/-- The tokens of `rest` that are neither a wrapper option token nor the token right
after a value-taking option token, in order; `prev` is the token before `rest`. -/
def passAfter (prev : String) (rest : List String) : List String :=
  (((prev :: rest).zip rest).filter (fun p => !isWrapperOpt p.2 && !isValueOpt p.1)).map Prod.snd

/-- The pass-through list as the specification describes it: the tokens at positions
`≥ 1` that are neither a wrapper option token nor the token right after a `-c`,
`--config`, `-u` or `--url-path` token, in their original order. -/
def specPassThrough (args : List String) : List String :=
  ((args.zip args.tail).filter (fun p => !isWrapperOpt p.2 && !isValueOpt p.1)).map Prod.snd

/-- Some occurrence of `-c`, `--config`, `-u` or `--url-path` is the last token or is
immediately followed by a token whose first character is `-`. -/
def valueMissing (args : List String) : Prop :=
  ∃ pre opt post, args = pre ++ opt :: post ∧
    (opt = "-c" ∨ opt = "--config" ∨ opt = "-u" ∨ opt = "--url-path") ∧
    (post = [] ∨ ∃ t ts, post = t :: ts ∧ t.data.head? = some '-')

/-- The outcome is the requires-an-argument error of `parseArgs`. -/
def isRequiresArgExit {α : Type} (o : Outcome α) : Prop :=
  ∃ opt, o = Outcome.exit (configErr opt) ∨ o = Outcome.exit (urlErr opt)

/-- Recursive form of `valueMissing`, convenient for induction. -/
def hasMissingValue : List String → Bool
  | [] => false
  | arg :: rest =>
    (isValueOpt arg && (match rest with
      | [] => true
      | t :: _ => startsWithDash t)) || hasMissingValue rest

/-- The re-quoting the specification describes for one pass-through token: a token that
contains a double-quote character is wrapped in single quotes, any other token is kept. -/
def requote (t : String) : String := if '"' ∈ t.data then "'" ++ t ++ "'" else t

/-- The test of `genCurlCmd` that turns `show` on for a wrapper option entry. -/
def showTest (arg : String) : Prop := stringsIndex arg "--show" = 0 ∨ stringsIndex arg "-s" = 0

/-- The test of `genCurlCmd` that makes a wrapper option entry set `path`. -/
def urlTest (arg : String) : Prop :=
  stringsIndex arg "--url-path" = 0 ∨ stringsIndex arg "-u" = 0

/-- The configuration text whose lines are `ls`, every line ended by a newline. -/
def configText : List String → String
  | [] => ""
  | l :: ls => l ++ "\n" ++ configText ls

/-- The base value as the specification describes it: the text after the prefix `BASE=`
of the last line that begins with `BASE=`, the empty string when there is no such line. -/
def specBase (ls : List String) : String :=
  match (ls.filter (fun l => "BASE=".data.isPrefixOf l.data)).getLast? with
  | some l => ⟨l.data.drop 5⟩
  | none => ""

/-- The extras as the specification describes them: the lines that begin with neither `#`
nor `BASE=`, unchanged and in file order. -/
def specExtras (ls : List String) : List String :=
  ls.filter (fun l => !("#".data.isPrefixOf l.data) && !("BASE=".data.isPrefixOf l.data))

/-! ## Global declarations and the first-run configuration text -/

/-- Go global `configDir`. -/
def configDir : String := ".jerry-curl"

/-- Go global `configFile`. -/
def configFile : String := "jerry-curl.config"

/-- The text `defaultConfig` that `createConfig` writes on first run (a raw string literal
in the source; its last line, `# `, has no newline). -/
def defaultConfig : String :=
  "# Some example of items to put in this config file\n" ++
  "# \n" ++
  "# For repeated requests to the same URL:\n" ++
  "# BASE=http://www.example.com\n" ++
  "#    NOTE:  BASE is the only config option done as a key=value pair.\n" ++
  "#           All others are simply one command line option per line.\n" ++
  "#           Make sure the line starts with \"BASE=\"\n" ++
  "# \n" ++
  "# Proxy curl commands:\n" ++
  "# --proxy 127.0.0.1:8080 \n" ++
  "# \n" ++
  "# Allow insecure SSL:\n" ++
  "# --insecure\n" ++
  "#\n" ++
  "# Include headers in the output\n" ++
  "# -include\n" ++
  "# \n" ++
  "# Set an Auth header\n" ++
  "# -H \"X-Auth-Token: 55555555-5555-5555-5555-555555555555\"\n" ++
  "#\n" ++
  "# Set accepts header \n" ++
  "# -H \"Accept: application/json\"\n" ++
  "# \n" ++
  "# Set content-type header\n" ++
  "# -H \"Content-Type: application/json\"\n" ++
  "# "

/-! ## `main` and its interactions with the operating system -/

/-- The interactions of the program with the environment, the file system and other
processes, in the order in which they happen.  Standard output is not part of the trace. -/
inductive Event where
  /-- `exec.LookPath(file)` -/
  | lookPath (file : String) : Event
  /-- `os.Getenv(key)` -/
  | getenv (key : String) : Event
  /-- `os.Stat(path)` -/
  | stat (path : String) : Event
  /-- `os.Mkdir(path, 0700)` -/
  | mkdir (path : String) : Event
  /-- `ioutil.WriteFile(path, data, 0600)` -/
  | writeFile (path : String) (data : String) : Event
  /-- `os.Open(path)` followed by the reads of `readConfig` -/
  | openFile (path : String) : Event
  /-- `exec.Command(name, args...)` followed by `cmd.Start()` -/
  | startCmd (name : String) (args : List String) : Event
  deriving DecidableEq

/-- The event is a read of the configuration file or the start of a process. -/
def Event.isReadOrStart : Event → Bool
  | Event.openFile _ => true
  | Event.startCmd _ _ => true
  | _ => false

/-- What the world outside the program answers: the results of the library calls, the
library function `path.Join`, and the order in which the runtime ranges over a map in the
two loops that do so (`rangeMain` in `main`, `rangeGen` in `genCurlCmd`).  For `os.Open`
the answer is the error text, or else the text that the reads deliver together with the
error that ends the reading when that error is not `io.EOF` (`none` for `io.EOF`). -/
structure Env where
  lookPath : String → Option String
  getenv : String → String
  pathJoin : List String → String
  statOk : String → Bool
  mkdirOk : String → Bool
  writeOk : String → Bool
  openFile : String → Except String (String × Option String)
  rangeMain : List (Nat × String) → List (Nat × String)
  rangeGen : List (Nat × String) → List (Nat × String)

/-- A step of `main`: the interactions it performs and how it ends. -/
abbrev Run (α : Type) : Type := List Event × Outcome α

/-- Sequencing of two steps: the second runs only when the first returns. -/
def andThen {α β : Type} (x : Run α) (f : α → Run β) : Run β :=
  match x.2 with
  | Outcome.ret a => (x.1 ++ (f a).1, (f a).2)
  | Outcome.exit out => (x.1, Outcome.exit out)
  | Outcome.panic => (x.1, Outcome.panic)

/-- Go `curlCheck()`. -/
def curlCheck (env : Env) : Run String :=
  ([Event.lookPath "curl"],
    match env.lookPath "curl" with
    | some path => Outcome.ret path
    | none => Outcome.exit ("The curl command must be installed and in your path.\n" ++
        "Please install curl to enjoy all of jerry-curl\n"))

/-- Go `createConfig()`.  A failing `os.Mkdir` only prints; the text is kept for the case
that the function exits afterwards. -/
def createConfig (env : Env) : Run Unit :=
  let home := env.getenv "HOME"
  if home = "" then
    ([Event.getenv "HOME"], Outcome.exit
      "The environmental varaible HOME needs to be set to your home directory\n")
  else
    let config := env.pathJoin [home, configDir]
    let configFilePath := env.pathJoin [config, configFile]
    if env.statOk configFilePath then
      ([Event.getenv "HOME", Event.stat configFilePath], Outcome.ret ())
    else
      let events := [Event.getenv "HOME", Event.stat configFilePath, Event.stat config]
      let events := if env.statOk config then events else events ++ [Event.mkdir config]
      let printed :=
        if env.statOk config = false ∧ env.mkdirOk config = false then
          "Unable to create config directory at " ++ config ++ "\n"
        else ""
      if env.writeOk configFilePath then
        (events ++ [Event.writeFile configFilePath defaultConfig], Outcome.ret ())
      else
        (events ++ [Event.writeFile configFilePath defaultConfig],
          Outcome.exit (printed ++ "Unable to write config file\n" ++
            ("Please check permissions of " ++ config ++ "\n")))

/-- Go `readConfig(newConfig)` as a whole: the choice of the path, `os.Open`, then the
line parser `readConfig` on the text the reads deliver (which always yields a result, see
`readConfig_total`), and the final test `err != io.EOF`, which prints the error and exits
when the reading ended with another error. -/
def readConfigAt (env : Env) (newConfig : String) : Run (String × List String) :=
  let openAndParse (events : List Event) (config : String) : Run (String × List String) :=
    match env.openFile config with
    | Except.error err =>
      (events ++ [Event.openFile config],
        Outcome.exit ("Error reading configuration file at " ++ config ++ "\n" ++
          ("\t OS error: " ++ err ++ "\n")))
    | Except.ok (_, some readErr) =>
      (events ++ [Event.openFile config], Outcome.exit (readErr ++ "\n"))
    | Except.ok (text, none) =>
      (events ++ [Event.openFile config],
        match readConfig text with
        | some r => Outcome.ret r
        | none => Outcome.ret ("", []))
  if newConfig.length > 0 then openAndParse [] newConfig
  else
    let home := env.getenv "HOME"
    if home = "" then
      ([Event.getenv "HOME"], Outcome.exit
        "The environmental varaible HOME needs to be set to your home directory\n")
    else openAndParse [Event.getenv "HOME"] (env.pathJoin [home, configDir, configFile])

/-- The part of `main` before the call of `argClash`: `curlCheck()` and `createConfig()`. -/
def mainBeforeClash (env : Env) : Run String :=
  andThen (curlCheck env) (fun curl => andThen (createConfig env) (fun _ => ([], Outcome.ret curl)))

/-- The part of `main` after `argClash` has returned: `parseArgs`, the search for an
alternate configuration file, `readConfig`, `genCurlCmd`, then either the display of the
command or the start of curl.  The run is followed up to `cmd.Start()`: the pipes and the
start are taken to succeed, and the handling of curl's output is left out.  Of the
standard output only the two lines of the show-only branch are kept; the diagnostic lines
(`URL in method =...` of `genCurlCmd`, `final command is ...` of `main`) are left out. -/
def mainAfterClash (env : Env) (curl : String) (args : List String) : Run Unit :=
  andThen ([], parseArgs args) (fun parsed =>
    let newConfig := mainNewConfig (env.rangeMain parsed.1)
    andThen (readConfigAt env newConfig) (fun cfg =>
      let r := genCurlCmd (env.rangeGen parsed.1) parsed.2 cfg.1
      let finalCmd := mainFinalCmd cfg.2 r.1
      if r.2 then
        ([], Outcome.exit ("Here is the curl command which would run:\n" ++
          (curl ++ " " ++ stringsJoin finalCmd " " ++ "\n")))
      else ([Event.startCmd "curl" finalCmd], Outcome.ret ())))

/-- Go `main()` on the arguments `args` (`os.Args`). -/
def main (env : Env) (args : List String) : Run Unit :=
  andThen (mainBeforeClash env) (fun curl =>
    andThen ([], argClash args) (fun _ => mainAfterClash env curl args))

/-- A first run: curl is installed, `HOME` is `/home/u`, neither the configuration
directory nor the file exists yet, and creating them succeeds. -/
def firstRunEnv : Env where
  lookPath := fun _ => some "/usr/bin/curl"
  getenv := fun _ => "/home/u"
  pathJoin := fun parts => "/".intercalate parts
  statOk := fun _ => false
  mkdirOk := fun _ => true
  writeOk := fun _ => true
  openFile := fun _ => Except.ok (defaultConfig, none)
  rangeMain := fun m => m
  rangeGen := fun m => m

/-! # Theorems -/

/-! ## Facts about `argClash` -/

theorem argClashCount_foldl (args : List String) (c : Counts) :
    args.foldl argClashCount c =
      ⟨c.countConfig + args.count "--config", c.countC + args.count "-c",
        c.countShow + args.count "--show", c.countS + args.count "-s",
        c.countUrl + args.count "--url-path", c.countU + args.count "-u"⟩ := by
  induction args generalizing c with
  | nil => simp
  | cons a rest ih =>
    rw [List.foldl_cons, ih]
    unfold argClashCount
    split_ifs with h1 h2 h3 h4 h5 h6
    · subst h1; simp [List.count_cons]; omega
    · subst h2; simp [List.count_cons]; omega
    · subst h3; simp [List.count_cons]; omega
    · subst h4; simp [List.count_cons]; omega
    · subst h5; simp [List.count_cons]; omega
    · subst h6; simp [List.count_cons]; omega
    · simp [List.count_cons, h1, h2, h3, h4, h5, h6]

theorem argClashCounts_eq (args : List String) :
    argClashCounts args =
      ⟨args.count "--config", args.count "-c", args.count "--show", args.count "-s",
        args.count "--url-path", args.count "-u"⟩ := by
  simp [argClashCounts, argClashCount_foldl]

theorem addIf_length (c : Bool) (m a b : String) :
    (addIf c m a b).length = m.length + (if c then a.length + b.length else 0) := by
  cases c <;> simp [addIf, String.length_append, Nat.add_assoc]

theorem length_chain (m a1 b1 a2 b2 a3 b3 a4 b4 a5 b5 a6 b6 a7 b7 : String)
    (c1 c2 c3 c4 c5 c6 c7 : Bool) (hm : m.length = 9)
    (h1 : 0 < a1.length) (h2 : 0 < a2.length) (h3 : 0 < a3.length) (h4 : 0 < a4.length)
    (h5 : 0 < a5.length) (h6 : 0 < a6.length) (h7 : 0 < a7.length) :
    9 < (addIf c7 (addIf c6 (addIf c5 (addIf c4 (addIf c3 (addIf c2 (addIf c1 m a1 b1) a2 b2)
      a3 b3) a4 b4) a5 b5) a6 b6) a7 b7).length ↔
      (c1 = true ∨ c2 = true ∨ c3 = true ∨ c4 = true ∨ c5 = true ∨ c6 = true ∨ c7 = true) := by
  simp only [addIf_length, hm]
  cases c1 <;> cases c2 <;> cases c3 <;> cases c4 <;> cases c5 <;> cases c6 <;> cases c7 <;>
    simp <;> omega

/-- The final test `len(message) > 9` of `argClash` succeeds exactly when one of the seven
guarded blocks has added its two lines. -/
theorem argClashMessage_length (c : Counts) :
    9 < (argClashMessage c).length ↔
      (2 ≤ c.countConfig ∨ 2 ≤ c.countC ∨ 2 ≤ c.countS ∨ 2 ≤ c.countU ∨
        (1 ≤ c.countConfig ∧ 1 ≤ c.countC) ∨ (1 ≤ c.countShow ∧ 1 ≤ c.countS) ∨
        (1 ≤ c.countUrl ∧ 1 ≤ c.countU)) := by
  unfold argClashMessage
  rw [length_chain _ _ _ _ _ _ _ _ _ _ _ _ _ _ _ _ _ _ _ _ _ _ (by decide) (by decide)
    (by decide) (by decide) (by decide) (by decide) (by decide) (by decide)]
  simp

theorem argClash_exit_of_clashes (args : List String) (h : clashes args) :
    argClash args = Outcome.exit (argClashMessage (argClashCounts args) ++ "\n") := by
  have hlen : 9 < (argClashMessage (argClashCounts args)).length := by
    rw [argClashMessage_length, argClashCounts_eq]
    exact h
  simp [argClash, hlen]

theorem argClash_ret_of_not_clashes (args : List String) (h : ¬ clashes args) :
    argClash args = Outcome.ret () := by
  have hlen : ¬ 9 < (argClashMessage (argClashCounts args)).length := by
    rw [argClashMessage_length, argClashCounts_eq]
    exact h
  simp [argClash, hlen]

/-- C1, as stated, fails: `--show` given twice is accepted by `argClash`. -/
theorem argClash_accepts_repeated_show :
    2 ≤ List.count "--show" ["jerry-curl", "--show", "--show"] ∧
      argClash ["jerry-curl", "--show", "--show"] = Outcome.ret () := by
  decide

/-- C1, amended: when one of the four spellings shared with curl (`-c`, `--config`, `-s`,
`-u`) occurs two or more times, `argClash` prints its error message and exits instead of
returning. -/
theorem argClash_rejects_repeated_shared (args : List String) (opt : String)
    (hopt : opt = "-c" ∨ opt = "--config" ∨ opt = "-s" ∨ opt = "-u")
    (hrep : 2 ≤ args.count opt) :
    ∃ out, argClash args = Outcome.exit out := by
  have hc : clashes args := by
    unfold clashes
    rcases hopt with h | h | h | h <;> subst h <;> simp [hrep]
  rw [argClash_exit_of_clashes args hc]
  exact ⟨_, rfl⟩

theorem argClash_rejects_repeated_shared_witness :
    2 ≤ List.count "-c" ["jerry-curl", "-c", "a", "-c", "b"] ∧
      ∃ out, argClash ["jerry-curl", "-c", "a", "-c", "b"] = Outcome.exit out :=
  ⟨by decide, argClash_rejects_repeated_shared _ "-c" (Or.inl rfl) (by decide)⟩

/-! ## The url suffix and the alternate configuration path at concrete inputs -/

/-- C2 at a failing input: with base `http://example.test`, the arguments `-u users` are
parsed into the single wrapper option `-u users`, and `genCurlCmd` builds the URL
`http://example.testsers`, which is not the base followed by `users`. -/
theorem genCurlCmd_short_url_strips_value :
    parseArgs ["jerry-curl", "-u", "users"] = Outcome.ret ([(1, "-u users")], []) ∧
      genCurlCmd [(1, "-u users")] [] "http://example.test" =
        (["http://example.testsers"], false) ∧
      (genCurlCmd [(1, "-u users")] [] "http://example.test").1.getLast? ≠
        some ("http://example.test" ++ "users") := by
  decide

/-- C3 at a failing input: with base `http://example.test`, the arguments
`--url-path /api/v1` are parsed into the single wrapper option `--url-path /api/v1`, and
`genCurlCmd` builds the URL `http://example.testrl-path /api/v1`, which is not the base
followed by `/api/v1`. -/
theorem genCurlCmd_long_url_keeps_option_text :
    parseArgs ["jerry-curl", "--url-path", "/api/v1"] =
        Outcome.ret ([(1, "--url-path /api/v1")], []) ∧
      genCurlCmd [(1, "--url-path /api/v1")] [] "http://example.test" =
        (["http://example.testrl-path /api/v1"], false) ∧
      (genCurlCmd [(1, "--url-path /api/v1")] [] "http://example.test").1.getLast? ≠
        some ("http://example.test" ++ "/api/v1") := by
  decide

/-- C4 at a failing input: the arguments `-u /api-clients` hold no `-c`/`--config` option,
yet the loop of `main` sets `newConfig` to `/api-clients`, not to the empty string. -/
theorem mainNewConfig_taken_from_url_value :
    "-c" ∉ ["jerry-curl", "-u", "/api-clients"] ∧
      "--config" ∉ ["jerry-curl", "-u", "/api-clients"] ∧
      parseArgs ["jerry-curl", "-u", "/api-clients"] =
        Outcome.ret ([(1, "-u /api-clients")], []) ∧
      mainNewConfig [(1, "-u /api-clients")] = "/api-clients" ∧
      mainNewConfig [(1, "-u /api-clients")] ≠ "" := by
  decide

/-! ## Facts about `parseArgs` -/

theorem char_toNat_45 (c : Char) : c.toNat = 45 ↔ c = '-' := by
  constructor
  · intro h
    have := Char.ofNat_toNat c
    rw [h] at this
    exact this.symm
  · rintro rfl; rfl

theorem mapSet_fresh (m : List (Nat × String)) (n : Nat) (v : String)
    (h : ∀ e ∈ m, e.1 < n) : mapSet m n v = m ++ [(n, v)] := by
  have : m.any (fun e => decide (e.1 = n)) = false := by
    rw [List.any_eq_false]
    intro e he
    have := h e he
    simp; omega
  simp [mapSet, this]

theorem stringsJoin_single (t : String) : stringsJoin [t] "" = t := by
  simp [stringsJoin, String.intercalate, String.intercalate.go]

theorem sliceArgs_next (pre : List String) (arg t : String) (rest : List String) :
    sliceArgs (pre ++ arg :: t :: rest) (pre.length + 1) (pre.length + 2) = [t] := by
  have : pre ++ arg :: t :: rest = (pre ++ [arg]) ++ t :: rest := by simp
  rw [sliceArgs, this, List.drop_append_of_le_length (by simp)]
  simp

theorem parseValueOption_last (err : String → String) (pre : List String) (arg : String)
    (st : ParseState) :
    parseValueOption err (pre ++ [arg]) pre.length arg st = Outcome.exit (err arg) := by
  simp [parseValueOption]

theorem parseValueOption_next (err : String → String) (pre : List String) (arg t : String)
    (rest : List String) (st : ParseState) :
    parseValueOption err (pre ++ arg :: t :: rest) pre.length arg st =
      if t.data = [] then Outcome.panic
      else if startsWithDash t then Outcome.exit (err arg)
      else Outcome.ret
        { st with jerryArgs := mapSet st.jerryArgs pre.length (arg ++ " " ++ t),
                  skip := true, next := t } := by
  have hlen : ¬ (pre ++ arg :: t :: rest).length < pre.length + 2 := by simp
  simp only [parseValueOption, hlen, decide_False, sliceArgs_next, stringsJoin_single]
  rcases t with ⟨d⟩
  cases d with
  | nil => simp
  | cons c cs => simp [startsWithDash, char_toNat_45]

theorem parseLoop_eq_parseLoopL (rest pre : List String) (st : ParseState) :
    parseLoop (pre ++ rest) rest pre.length st = parseLoopL rest pre.length st := by
  induction rest generalizing pre st with
  | nil => simp [parseLoop, parseLoopL]
  | cons arg rest ih =>
    have happ : pre ++ arg :: rest = (pre ++ [arg]) ++ rest := by simp
    have hl : pre.length + 1 = (pre ++ [arg]).length := by simp
    have ih' : ∀ st1, parseLoop (pre ++ arg :: rest) rest (pre.length + 1) st1 =
        parseLoopL rest (pre.length + 1) st1 := by
      intro st1
      rw [happ, hl]
      exact ih _ _
    rw [parseLoop, parseStep]
    conv_rhs => unfold parseLoopL
    by_cases hc : arg = "-c" ∨ arg = "--config"
    · have hv : isValueOpt arg = true := by simp [isValueOpt, isConfigOpt, hc]
      have he : requiresArgErr arg = configErr arg := by simp [requiresArgErr, isConfigOpt, hc]
      rw [if_pos hc, if_pos hv, he]
      cases rest with
      | nil => simp [parseValueOption_last]
      | cons t ts =>
        rw [parseValueOption_next]
        by_cases h1 : t.data = []
        · simp [h1]
        · by_cases h2 : startsWithDash t = true
          · simp [h1, h2]
          · simp only [h1, h2, if_false]
            exact ih' _
    · have hnc : isConfigOpt arg = false := by simp [isConfigOpt, hc]
      rw [if_neg hc]
      by_cases hs : arg = "-s" ∨ arg = "--show"
      · have hv : isValueOpt arg = false := by
          rcases hs with h | h <;> subst h <;> decide
        have hs' : isShowOpt arg = true := by simp [isShowOpt, hs]
        simp only [if_pos hs, hv, hs', if_true, Bool.false_eq_true, if_false]
        exact ih' _
      · have hs' : isShowOpt arg = false := by simp [isShowOpt, hs]
        rw [if_neg hs]
        by_cases hu : arg = "-u" ∨ arg = "--url-path"
        · have hv : isValueOpt arg = true := by simp [isValueOpt, isUrlOpt, hu]
          have he : requiresArgErr arg = urlErr arg := by simp [requiresArgErr, hnc]
          rw [if_pos hu, if_pos hv, he]
          cases rest with
          | nil => simp [parseValueOption_last]
          | cons t ts =>
            rw [parseValueOption_next]
            by_cases h1 : t.data = []
            · simp [h1]
            · by_cases h2 : startsWithDash t = true
              · simp [h1, h2]
              · simp only [h1, h2, if_false]
                exact ih' _
        · have hv : isValueOpt arg = false := by simp [isValueOpt, isUrlOpt, hu, hnc]
          rw [if_neg hu]
          simp only [hv, hs', Bool.false_eq_true, if_false]
          by_cases hh : arg = "-h" ∨ arg = "--help"
          · simp [hh, isHelpOpt]
          · have hh' : isHelpOpt arg = false := by simp [isHelpOpt, hh]
            simp only [if_neg hh, hh', Bool.false_eq_true, if_false]
            by_cases hk : st.skip = false
            · simp only [hk, if_true]
              exact ih' _
            · simp only [hk, if_false]
              exact ih' _
theorem parseLoopL_value_nil (arg : String) (n : Nat) (st : ParseState)
    (hv : isValueOpt arg = true) :
    parseLoopL [arg] n st = Outcome.exit (requiresArgErr arg) := by
  unfold parseLoopL
  simp [hv]

theorem parseLoopL_value_cons (arg t : String) (ts : List String) (n : Nat) (st : ParseState)
    (hv : isValueOpt arg = true) :
    parseLoopL (arg :: t :: ts) n st =
      if t.data = [] then Outcome.panic
      else if startsWithDash t then Outcome.exit (requiresArgErr arg)
      else parseLoopL (t :: ts) (n + 1)
        { st with jerryArgs := mapSet st.jerryArgs n (arg ++ " " ++ t), skip := true, next := t } := by
  conv_lhs => unfold parseLoopL
  simp [hv]

theorem parseLoopL_show (arg : String) (rest : List String) (n : Nat) (st : ParseState)
    (hv : isValueOpt arg = false) (hs : isShowOpt arg = true) :
    parseLoopL (arg :: rest) n st =
      parseLoopL rest (n + 1) { st with jerryArgs := mapSet st.jerryArgs n arg } := by
  conv_lhs => unfold parseLoopL
  simp [hv, hs]

theorem parseLoopL_help (arg : String) (rest : List String) (n : Nat) (st : ParseState)
    (hv : isValueOpt arg = false) (hs : isShowOpt arg = false) (hh : isHelpOpt arg = true) :
    parseLoopL (arg :: rest) n st = Outcome.exit printHelp := by
  conv_lhs => unfold parseLoopL
  simp [hv, hs, hh]

theorem parseLoopL_default (arg : String) (rest : List String) (n : Nat) (st : ParseState)
    (hv : isValueOpt arg = false) (hs : isShowOpt arg = false) (hh : isHelpOpt arg = false) :
    parseLoopL (arg :: rest) n st =
      parseLoopL rest (n + 1)
        (if st.skip = false then { st with curlArgs := st.curlArgs ++ [arg] }
         else { st with skip := false }) := by
  conv_lhs => unfold parseLoopL
  simp only [hv, hs, hh, Bool.false_eq_true, if_false]
  split_ifs <;> rfl

theorem startsWithDash_of_isValueOpt (a : String) (h : isValueOpt a = true) :
    startsWithDash a = true := by
  simp only [isValueOpt, isConfigOpt, isUrlOpt, Bool.or_eq_true, decide_eq_true_eq] at h
  rcases h with (h | h) | (h | h) <;> subst h <;> decide

theorem startsWithDash_of_isShowOpt (a : String) (h : isShowOpt a = true) :
    startsWithDash a = true := by
  simp only [isShowOpt, decide_eq_true_eq] at h
  rcases h with h | h <;> subst h <;> decide

theorem parseLoopL_jerryArgs (rest : List String) (n : Nat) (st st' : ParseState)
    (hk : ∀ e ∈ st.jerryArgs, e.1 < n) (h : parseLoopL rest n st = Outcome.ret st') :
    st'.jerryArgs = st.jerryArgs ++ jerryFrom rest n := by
  induction rest generalizing n st with
  | nil =>
    simp only [parseLoopL, Outcome.ret.injEq] at h
    simp [jerryFrom, h]
  | cons arg rest ih =>
    by_cases hv : isValueOpt arg = true
    · cases rest with
      | nil => rw [parseLoopL_value_nil _ _ _ hv] at h; cases h
      | cons t ts =>
        rw [parseLoopL_value_cons _ _ _ _ _ hv] at h
        split_ifs at h with h1 h2
        have := ih (n + 1) _ (by
          simp only [mapSet_fresh _ _ _ hk]
          intro e he
          rcases List.mem_append.1 he with he | he
          · exact Nat.lt_succ_of_lt (hk e he)
          · simp at he; subst he; simp) h
        rw [this, mapSet_fresh _ _ _ hk]
        simp [jerryFrom, hv]
    · have hv' : isValueOpt arg = false := by simpa using hv
      by_cases hs : isShowOpt arg = true
      · rw [parseLoopL_show _ _ _ _ hv' hs] at h
        have := ih (n + 1) _ (by
          simp only [mapSet_fresh _ _ _ hk]
          intro e he
          rcases List.mem_append.1 he with he | he
          · exact Nat.lt_succ_of_lt (hk e he)
          · simp at he; subst he; simp) h
        rw [this, mapSet_fresh _ _ _ hk]
        simp [jerryFrom, hv', hs]
      · have hs' : isShowOpt arg = false := by simpa using hs
        by_cases hh : isHelpOpt arg = true
        · rw [parseLoopL_help _ _ _ _ hv' hs' hh] at h; cases h
        · have hh' : isHelpOpt arg = false := by simpa using hh
          rw [parseLoopL_default _ _ _ _ hv' hs' hh'] at h
          have := ih (n + 1) _ (by
            intro e he
            have he' : e ∈ st.jerryArgs := by
              split_ifs at he <;> exact he
            exact Nat.lt_succ_of_lt (hk e he')) h
          rw [this]
          have : (if st.skip = false then { st with curlArgs := st.curlArgs ++ [arg] }
            else { st with skip := false } : ParseState).jerryArgs = st.jerryArgs := by
            split_ifs <;> rfl
          rw [this]
          simp [jerryFrom, hv', hs']

theorem parseLoopL_curlArgs (rest : List String) (prev : String) (n : Nat) (st st' : ParseState)
    (hskip : st.skip = isValueOpt prev)
    (hnext : st.skip = true → ∀ t, rest.head? = some t → startsWithDash t = false)
    (h : parseLoopL rest n st = Outcome.ret st') :
    st'.curlArgs = st.curlArgs ++ passAfter prev rest := by
  induction rest generalizing prev n st with
  | nil =>
    simp only [parseLoopL, Outcome.ret.injEq] at h
    simp [passAfter, h]
  | cons arg rest ih =>
    have hpass : passAfter prev (arg :: rest) =
        (if !isWrapperOpt arg && !isValueOpt prev then [arg] else []) ++ passAfter arg rest := by
      simp only [passAfter, List.zip_cons_cons, List.filter_cons]
      split_ifs <;> simp
    by_cases hv : isValueOpt arg = true
    · have hsk : st.skip = false := by
        by_contra hne
        have hs1 : st.skip = true := by simpa using hne
        have := hnext hs1 arg rfl
        rw [startsWithDash_of_isValueOpt _ hv] at this
        cases this
      cases rest with
      | nil => rw [parseLoopL_value_nil _ _ _ hv] at h; cases h
      | cons t ts =>
        rw [parseLoopL_value_cons _ _ _ _ _ hv] at h
        split_ifs at h with h1 h2
        have := ih arg (n + 1) _ (by simp [hv]) (by
          intro _ t' ht'
          simp only [List.head?_cons, Option.some.injEq] at ht'
          subst ht'
          simpa using h2) h
        rw [this, hpass]
        simp [isWrapperOpt, hv]
    · have hv' : isValueOpt arg = false := by simpa using hv
      by_cases hs : isShowOpt arg = true
      · have hsk : st.skip = false := by
          by_contra hne
          have hs1 : st.skip = true := by simpa using hne
          have := hnext hs1 arg rfl
          rw [startsWithDash_of_isShowOpt _ hs] at this
          cases this
        rw [parseLoopL_show _ _ _ _ hv' hs] at h
        have := ih arg (n + 1) _ (by simp [hv', hsk]) (by
          intro hc
          simp [hsk] at hc) h
        rw [this, hpass]
        simp [isWrapperOpt, hs]
      · have hs' : isShowOpt arg = false := by simpa using hs
        by_cases hh : isHelpOpt arg = true
        · rw [parseLoopL_help _ _ _ _ hv' hs' hh] at h; cases h
        · have hh' : isHelpOpt arg = false := by simpa using hh
          rw [parseLoopL_default _ _ _ _ hv' hs' hh'] at h
          by_cases hk : st.skip = false
          · simp only [hk, if_true] at h
            have := ih arg (n + 1) _ (by simp [hv', hk]) (by
              intro hc
              simp [hk] at hc) h
            rw [this, hpass]
            have hp : isValueOpt prev = false := by rw [← hskip, hk]
            simp [isWrapperOpt, hv', hs', hp]
          · simp only [hk, if_false] at h
            have := ih arg (n + 1) _ (by simp [hv']) (by
              intro hc
              simp at hc) h
            rw [this, hpass]
            have hp : isValueOpt prev = true := by rw [← hskip]; simpa using hk
            simp [hp]
theorem parseArgs_eq (args : List String) :
    parseArgs args =
      match parseLoopL args 0 ⟨[], [], true, ""⟩ with
      | Outcome.ret st => Outcome.ret (st.jerryArgs, st.curlArgs)
      | Outcome.exit out => Outcome.exit out
      | Outcome.panic => Outcome.panic := by
  have h := parseLoop_eq_parseLoopL args [] ⟨[], [], true, ""⟩
  simp only [List.nil_append, List.length_nil] at h
  rw [parseArgs, h]

theorem parseArgs_ret (args : List String) (jerry : List (Nat × String)) (curl : List String)
    (h : parseArgs args = Outcome.ret (jerry, curl)) :
    ∃ st, parseLoopL args 0 ⟨[], [], true, ""⟩ = Outcome.ret st ∧
      st.jerryArgs = jerry ∧ st.curlArgs = curl := by
  rw [parseArgs_eq] at h
  cases hl : parseLoopL args 0 ⟨[], [], true, ""⟩ with
  | ret st =>
    rw [hl] at h
    simp only [Outcome.ret.injEq, Prod.mk.injEq] at h
    exact ⟨st, rfl, h.1, h.2⟩
  | exit out => rw [hl] at h; cases h
  | panic => rw [hl] at h; cases h

theorem parseArgs_jerryArgs (args : List String) (jerry : List (Nat × String))
    (curl : List String) (h : parseArgs args = Outcome.ret (jerry, curl)) :
    jerry = jerryFrom args 0 := by
  obtain ⟨st, hst, hj, _⟩ := parseArgs_ret args jerry curl h
  have := parseLoopL_jerryArgs args 0 _ st (by simp) hst
  simpa [hj] using this

/-- C5: when `parseArgs` returns and the program name at position 0 is not one of the six
wrapper option spellings, the pass-through list is exactly the list of tokens at positions
`≥ 1`, in their original order, that are neither a wrapper option token nor the token
right after a `-c`, `--config`, `-u` or `--url-path` token. -/
theorem parseArgs_passThrough (args : List String) (jerry : List (Nat × String))
    (curl : List String) (hret : parseArgs args = Outcome.ret (jerry, curl))
    (h0 : ∀ a, args.head? = some a →
      a ∉ ["-c", "--config", "-s", "--show", "-u", "--url-path"]) :
    curl = specPassThrough args := by
  obtain ⟨st, hst, _, hc⟩ := parseArgs_ret args jerry curl hret
  cases args with
  | nil =>
    simp only [parseLoopL, Outcome.ret.injEq] at hst
    simp [specPassThrough, ← hc, ← hst]
  | cons a rest =>
    have ha := h0 a rfl
    simp only [List.mem_cons, List.mem_singleton, List.not_mem_nil, or_false, not_or] at ha
    have hv : isValueOpt a = false := by simp [isValueOpt, isConfigOpt, isUrlOpt, ha]
    have hs : isShowOpt a = false := by simp [isShowOpt, ha]
    by_cases hh : isHelpOpt a = true
    · rw [parseLoopL_help _ _ _ _ hv hs hh] at hst; cases hst
    · have hh' : isHelpOpt a = false := by simpa using hh
      rw [parseLoopL_default _ _ _ _ hv hs hh'] at hst
      have := parseLoopL_curlArgs rest a 1 _ st (by simp [hv]) (by simp) hst
      rw [← hc, this]
      simp [specPassThrough, passAfter]

theorem parseArgs_passThrough_witness :
    parseArgs ["jerry-curl", "-c", "my.cfg", "-H", "X: 1", "-s", "-u", "/api", "-v"] =
        Outcome.ret ([(1, "-c my.cfg"), (5, "-s"), (6, "-u /api")], ["-H", "X: 1", "-v"]) ∧
      "jerry-curl" ∉ ["-c", "--config", "-s", "--show", "-u", "--url-path"] ∧
      ["-H", "X: 1", "-v"] =
        specPassThrough ["jerry-curl", "-c", "my.cfg", "-H", "X: 1", "-s", "-u", "/api", "-v"] :=
  ⟨by decide, by decide,
    parseArgs_passThrough _ [(1, "-c my.cfg"), (5, "-s"), (6, "-u /api")] _ (by decide)
      (by decide)⟩

theorem hasMissingValue_iff (args : List String) :
    hasMissingValue args = true ↔ valueMissing args := by
  induction args with
  | nil => simp [hasMissingValue, valueMissing]
  | cons a rest ih =>
    have hval : isValueOpt a = true ↔
        (a = "-c" ∨ a = "--config" ∨ a = "-u" ∨ a = "--url-path") := by
      simp [isValueOpt, isConfigOpt, isUrlOpt, or_assoc]
    constructor
    · intro h
      simp only [hasMissingValue, Bool.or_eq_true, Bool.and_eq_true] at h
      rcases h with ⟨hv, hm⟩ | h
      · refine ⟨[], a, rest, rfl, hval.1 hv, ?_⟩
        cases rest with
        | nil => exact Or.inl rfl
        | cons t ts =>
          right
          exact ⟨t, ts, rfl, by simpa [startsWithDash] using hm⟩
      · obtain ⟨pre, opt, post, he, ho, hp⟩ := ih.1 h
        exact ⟨a :: pre, opt, post, by simp [he], ho, hp⟩
    · rintro ⟨pre, opt, post, he, ho, hp⟩
      simp only [hasMissingValue, Bool.or_eq_true, Bool.and_eq_true]
      cases pre with
      | nil =>
        simp only [List.nil_append, List.cons.injEq] at he
        obtain ⟨rfl, rfl⟩ := he
        left
        refine ⟨hval.2 ho, ?_⟩
        rcases hp with rfl | ⟨t, ts, rfl, ht⟩
        · rfl
        · simpa [startsWithDash] using ht
      | cons b pre =>
        simp only [List.cons_append, List.cons.injEq] at he
        right
        exact ih.2 ⟨pre, opt, post, he.2, ho, hp⟩

theorem requiresArgErr_isRequiresArgExit {α : Type} (arg : String) :
    isRequiresArgExit (Outcome.exit (requiresArgErr arg) : Outcome α) := by
  unfold requiresArgErr isRequiresArgExit
  split_ifs
  · exact ⟨arg, Or.inl rfl⟩
  · exact ⟨arg, Or.inr rfl⟩

theorem parseLoopL_missing (rest : List String) (n : Nat) (st : ParseState)
    (hh : ∀ a ∈ rest, isHelpOpt a = false) (he : ∀ a ∈ rest, a.data ≠ []) :
    (hasMissingValue rest = true ∧ isRequiresArgExit (parseLoopL rest n st)) ∨
      (hasMissingValue rest = false ∧ ∃ st', parseLoopL rest n st = Outcome.ret st') := by
  induction rest generalizing n st with
  | nil => right; exact ⟨rfl, st, rfl⟩
  | cons arg rest ih =>
    have hh' : ∀ a ∈ rest, isHelpOpt a = false := fun a ha => hh a (List.mem_cons_of_mem _ ha)
    have he' : ∀ a ∈ rest, a.data ≠ [] := fun a ha => he a (List.mem_cons_of_mem _ ha)
    by_cases hv : isValueOpt arg = true
    · cases rest with
      | nil =>
        left
        rw [parseLoopL_value_nil _ _ _ hv]
        exact ⟨by simp [hasMissingValue, hv], requiresArgErr_isRequiresArgExit arg⟩
      | cons t ts =>
        rw [parseLoopL_value_cons _ _ _ _ _ hv]
        have ht : t.data ≠ [] := he t (by simp)
        by_cases hd : startsWithDash t = true
        · left
          simp only [ht, hd, if_true, if_false]
          exact ⟨by simp [hasMissingValue, hv, hd], requiresArgErr_isRequiresArgExit arg⟩
        · simp only [ht, hd, if_false]
          have hd' : startsWithDash t = false := by simpa using hd
          have hm : hasMissingValue (arg :: t :: ts) = hasMissingValue (t :: ts) := by
            conv_lhs => unfold hasMissingValue
            simp [hd']
          rw [hm]
          exact ih _ _ hh' he'
    · have hv' : isValueOpt arg = false := by simpa using hv
      have hm : hasMissingValue (arg :: rest) = hasMissingValue rest := by
        conv_lhs => unfold hasMissingValue
        simp [hv']
      rw [hm]
      by_cases hs : isShowOpt arg = true
      · rw [parseLoopL_show _ _ _ _ hv' hs]
        exact ih _ _ hh' he'
      · have hs' : isShowOpt arg = false := by simpa using hs
        rw [parseLoopL_default _ _ _ _ hv' hs' (hh arg (by simp))]
        exact ih _ _ hh' he'

/-- C7: on an argument list without a help spelling and without an empty token,
`parseArgs` ends with the requires-an-argument error (and so returns no partition) if and
only if some occurrence of `-c`, `--config`, `-u` or `--url-path` is the last token or is
immediately followed by a token whose first character is `-`. -/
theorem parseArgs_requiresArg_iff (args : List String)
    (hhelp : "-h" ∉ args ∧ "--help" ∉ args) (hne : "" ∉ args) :
    isRequiresArgExit (parseArgs args) ↔ valueMissing args := by
  have hh : ∀ a ∈ args, isHelpOpt a = false := by
    intro a ha
    simp only [isHelpOpt, decide_eq_false_iff_not, not_or]
    exact ⟨fun h => hhelp.1 (h ▸ ha), fun h => hhelp.2 (h ▸ ha)⟩
  have he : ∀ a ∈ args, a.data ≠ [] := by
    intro a ha hd
    apply hne
    have : a = "" := by
      rcases a with ⟨d⟩
      simp only at hd
      subst hd
      rfl
    exact this ▸ ha
  rw [← hasMissingValue_iff, parseArgs_eq]
  rcases parseLoopL_missing args 0 ⟨[], [], true, ""⟩ hh he with ⟨hm, hx⟩ | ⟨hm, st', hst⟩
  · obtain ⟨opt, ho | ho⟩ := hx
    · rw [ho]
      exact ⟨fun _ => hm, fun _ => ⟨opt, Or.inl rfl⟩⟩
    · rw [ho]
      exact ⟨fun _ => hm, fun _ => ⟨opt, Or.inr rfl⟩⟩
  · rw [hst, hm]
    constructor
    · rintro ⟨opt, ho | ho⟩ <;> cases ho
    · intro h; cases h

theorem parseArgs_requiresArg_iff_witness :
    ("-h" ∉ ["jerry-curl", "-H", "X: 1", "-c"] ∧ "--help" ∉ ["jerry-curl", "-H", "X: 1", "-c"]) ∧
      "" ∉ ["jerry-curl", "-H", "X: 1", "-c"] ∧
      parseArgs ["jerry-curl", "-H", "X: 1", "-c"] = Outcome.exit (configErr "-c") ∧
      (isRequiresArgExit (parseArgs ["jerry-curl", "-H", "X: 1", "-c"]) ↔
        valueMissing ["jerry-curl", "-H", "X: 1", "-c"]) :=
  ⟨by decide, by decide, by decide, parseArgs_requiresArg_iff _ (by decide) (by decide)⟩

/-! ## Facts about package `strings` -/

theorem indexFrom_ge (sub s : List Char) (k : Nat) :
    indexFrom sub s k = -1 ∨ (k : Int) ≤ indexFrom sub s k := by
  induction s generalizing k with
  | nil => unfold indexFrom; split_ifs <;> simp
  | cons c cs ih =>
    unfold indexFrom
    split_ifs
    · right; exact le_refl _
    · rcases ih (k + 1) with h | h
      · exact Or.inl h
      · right; push_cast at h; omega

theorem indexFrom_eq_zero_iff (sub s : List Char) :
    indexFrom sub s 0 = 0 ↔ sub.isPrefixOf s = true := by
  cases s with
  | nil => unfold indexFrom; split_ifs with h <;> simp [h]
  | cons c cs =>
    unfold indexFrom
    split_ifs with h
    · simp [h]
    · constructor
      · intro h0
        rcases indexFrom_ge sub cs (0 + 1) with h1 | h1
        · rw [h1] at h0; cases h0
        · rw [h0] at h1; simp at h1
      · intro hf
        exact absurd hf h

theorem stringsIndex_eq_zero_iff (s sub : String) :
    stringsIndex s sub = 0 ↔ sub.data.isPrefixOf s.data = true :=
  indexFrom_eq_zero_iff _ _

theorem indexFrom_singleton_nonneg (ch : Char) (s : List Char) (k : Nat) :
    0 ≤ indexFrom [ch] s k ↔ ch ∈ s := by
  induction s generalizing k with
  | nil => simp [indexFrom, List.isPrefixOf]
  | cons c cs ih =>
    unfold indexFrom
    by_cases h : ch = c
    · subst h
      simp [List.isPrefixOf]
    · have h' : ¬ c = ch := fun e => h e.symm
      simp [List.isPrefixOf, h, ih]

theorem stringsIndex_quote_nonneg (t : String) : 0 ≤ stringsIndex t "\"" ↔ '"' ∈ t.data :=
  indexFrom_singleton_nonneg _ _ _

theorem isPrefixOf_append_false (a b x : List Char) (h1 : a.isPrefixOf b = false)
    (h2 : b.isPrefixOf a = false) : a.isPrefixOf (b ++ x) = false := by
  by_contra hne
  have hp : a.isPrefixOf (b ++ x) = true := by simpa using hne
  rw [ List.isPrefixOf_iff_prefix] at hp
  rcases List.prefix_or_prefix_of_prefix hp (List.prefix_append b x) with h | h
  · rw [← List.isPrefixOf_iff_prefix, h1] at h; cases h
  · rw [← List.isPrefixOf_iff_prefix, h2] at h; cases h

theorem stringsIndex_append_ne_zero (sub b x : String)
    (h1 : sub.data.isPrefixOf b.data = false) (h2 : b.data.isPrefixOf sub.data = false) :
    stringsIndex (b ++ x) sub ≠ 0 := by
  rw [Ne, stringsIndex_eq_zero_iff, String.data_append, isPrefixOf_append_false _ _ _ h1 h2]
  simp

/-! ## Facts about `genCurlCmd` -/

theorem showTest_of_isShowOpt (a : String) (h : isShowOpt a = true) : showTest a := by
  simp only [isShowOpt, decide_eq_true_eq] at h
  rcases h with h | h <;> subst h <;> unfold showTest <;> decide

theorem not_urlTest_of_isShowOpt (a : String) (h : isShowOpt a = true) : ¬ urlTest a := by
  simp only [isShowOpt, decide_eq_true_eq] at h
  rcases h with h | h <;> subst h <;> unfold urlTest <;> decide

theorem not_showTest_value (opt v : String) (h : isValueOpt opt = true) :
    ¬ showTest (opt ++ " " ++ v) := by
  simp only [isValueOpt, isConfigOpt, isUrlOpt, Bool.or_eq_true, decide_eq_true_eq] at h
  unfold showTest
  rcases h with (h | h) | (h | h) <;> subst h <;>
    exact not_or.2 ⟨stringsIndex_append_ne_zero _ _ _ (by decide) (by decide),
      stringsIndex_append_ne_zero _ _ _ (by decide) (by decide)⟩

theorem not_urlTest_config (opt v : String) (h : isConfigOpt opt = true) :
    ¬ urlTest (opt ++ " " ++ v) := by
  simp only [isConfigOpt, decide_eq_true_eq] at h
  unfold urlTest
  rcases h with h | h <;> subst h <;>
    exact not_or.2 ⟨stringsIndex_append_ne_zero _ _ _ (by decide) (by decide),
      stringsIndex_append_ne_zero _ _ _ (by decide) (by decide)⟩

theorem genCurlStep_fst (st : Bool × String) (arg : String) :
    (genCurlStep st arg).1 = true ↔ (st.1 = true ∨ showTest arg) := by
  unfold genCurlStep showTest
  by_cases h : stringsIndex arg "--show" = 0 ∨ stringsIndex arg "-s" = 0
  · simp [h]
  · simp [h]

theorem genCurlStep_snd (st : Bool × String) (arg : String) (h : ¬ urlTest arg) :
    (genCurlStep st arg).2 = st.2 := by
  unfold urlTest at h
  simp [genCurlStep, h]

theorem genCurl_foldl_fst (jerry : List (Nat × String)) (st : Bool × String) :
    (jerry.foldl (fun st e => genCurlStep st e.2) st).1 = true ↔
      (st.1 = true ∨ ∃ e ∈ jerry, showTest e.2) := by
  induction jerry generalizing st with
  | nil => simp
  | cons e rest ih =>
    rw [List.foldl_cons, ih, genCurlStep_fst]
    simp only [List.mem_cons, exists_eq_or_imp]
    tauto

theorem genCurl_foldl_snd (jerry : List (Nat × String)) (st : Bool × String)
    (h : ∀ e ∈ jerry, ¬ urlTest e.2) :
    (jerry.foldl (fun st e => genCurlStep st e.2) st).2 = st.2 := by
  induction jerry generalizing st with
  | nil => rfl
  | cons e rest ih =>
    rw [List.foldl_cons, ih _ (fun x hx => h x (List.mem_cons_of_mem _ hx)),
      genCurlStep_snd _ _ (h e (List.mem_cons_self _ _))]

theorem quoteStep_foldl (curl acc : List String) :
    curl.foldl quoteStep acc = acc ++ curl.map requote := by
  induction curl generalizing acc with
  | nil => simp
  | cons t rest ih =>
    rw [List.foldl_cons, ih]
    by_cases hq : '"' ∈ t.data
    · simp [quoteStep, requote, stringsIndex_quote_nonneg, hq]
    · simp [quoteStep, requote, stringsIndex_quote_nonneg, hq]

theorem genCurlCmd_fst (jerry : List (Nat × String)) (curl : List String) (base : String) :
    (genCurlCmd jerry curl base).1 =
      curl.map requote ++
        [base ++ (jerry.foldl (fun st e => genCurlStep st e.2) (false, "")).2] := by
  simp [genCurlCmd, quoteStep_foldl]

theorem genCurlCmd_snd (jerry : List (Nat × String)) (curl : List String) (base : String) :
    (genCurlCmd jerry curl base).2 = true ↔ ∃ e ∈ jerry, showTest e.2 := by
  simp [genCurlCmd, genCurl_foldl_fst]

theorem jerryFrom_showTest (rest : List String) (n : Nat) :
    (∃ e ∈ jerryFrom rest n, showTest e.2) ↔ ∃ a ∈ rest, isShowOpt a = true := by
  induction rest generalizing n with
  | nil => simp [jerryFrom]
  | cons arg rest ih =>
    simp only [jerryFrom, List.mem_append, List.mem_cons, exists_eq_or_imp]
    by_cases hv : isValueOpt arg = true
    · have hs : isShowOpt arg = false := by
        simp only [isValueOpt, isConfigOpt, isUrlOpt, Bool.or_eq_true, decide_eq_true_eq] at hv
        rcases hv with (h | h) | (h | h) <;> subst h <;> decide
      simp only [hv, if_true, List.mem_singleton, hs, Bool.false_eq_true, false_or]
      rw [← ih (n + 1)]
      constructor
      · rintro ⟨e, he | he, ht⟩
        · subst he
          exact absurd ht (not_showTest_value _ _ hv)
        · exact ⟨e, he, ht⟩
      · rintro ⟨e, he, ht⟩
        exact ⟨e, Or.inr he, ht⟩
    · have hv' : isValueOpt arg = false := by simpa using hv
      by_cases hs : isShowOpt arg = true
      · simp only [hv', hs, Bool.false_eq_true, if_false, if_true, true_or, iff_true]
        exact ⟨(n, arg), Or.inl (by simp), showTest_of_isShowOpt _ hs⟩
      · have hs' : isShowOpt arg = false := by simpa using hs
        simp only [hv', hs', Bool.false_eq_true, if_false, List.not_mem_nil, false_or]
        exact ih (n + 1)

theorem jerryFrom_not_urlTest (rest : List String) (n : Nat)
    (h : ∀ a ∈ rest, isUrlOpt a = false) : ∀ e ∈ jerryFrom rest n, ¬ urlTest e.2 := by
  induction rest generalizing n with
  | nil => simp [jerryFrom]
  | cons arg rest ih =>
    intro e he
    simp only [jerryFrom, List.mem_append] at he
    rcases he with he | he
    · have hu : isUrlOpt arg = false := h arg (List.mem_cons_self _ _)
      by_cases hc : isConfigOpt arg = true
      · simp only [isValueOpt, hc, Bool.true_or, if_true, List.mem_singleton] at he
        subst he
        exact not_urlTest_config _ _ hc
      · have hc' : isConfigOpt arg = false := by simpa using hc
        by_cases hs : isShowOpt arg = true
        · simp only [isValueOpt, hc', hu, Bool.or_self, Bool.false_eq_true, if_false, hs,
            if_true, List.mem_singleton] at he
          subst he
          exact not_urlTest_of_isShowOpt _ hs
        · simp [isValueOpt, hc', hu, hs] at he
    · exact ih (n + 1) (fun a ha => h a (List.mem_cons_of_mem _ ha)) e he
/-- C6: when the arguments hold no url-suffix option, then for every extras list `E`, every
pass-through list `P` and every base `b` the final command built in `main` is `E`, then
one entry per element of `P` in order (the element, re-quoted), then `b`; it has length
`|E| + |P| + 1`, starts with `E` and ends with `b`.  This holds for every iteration order
of the wrapper-option map. -/
theorem mainFinalCmd_without_url (args : List String) (jerry : List (Nat × String))
    (curl : List String) (hret : parseArgs args = Outcome.ret (jerry, curl))
    (hno : "-u" ∉ args ∧ "--url-path" ∉ args)
    (order : List (Nat × String)) (hperm : order.Perm jerry) (E P : List String) (b : String) :
    mainFinalCmd E (genCurlCmd order P b).1 = E ++ P.map requote ++ [b] ∧
      (mainFinalCmd E (genCurlCmd order P b).1).length = E.length + P.length + 1 ∧
      (mainFinalCmd E (genCurlCmd order P b).1).take E.length = E ∧
      (mainFinalCmd E (genCurlCmd order P b).1).getLast? = some b := by
  have hj := parseArgs_jerryArgs args jerry curl hret
  have hu : ∀ a ∈ args, isUrlOpt a = false := by
    intro a ha
    simp only [isUrlOpt, decide_eq_false_iff_not, not_or]
    exact ⟨fun h => hno.1 (h ▸ ha), fun h => hno.2 (h ▸ ha)⟩
  have hnot : ∀ e ∈ order, ¬ urlTest e.2 := by
    intro e he
    have he' : e ∈ jerryFrom args 0 := hj ▸ hperm.mem_iff.1 he
    exact jerryFrom_not_urlTest args 0 hu e he'
  have hcmd : mainFinalCmd E (genCurlCmd order P b).1 = E ++ P.map requote ++ [b] := by
    rw [mainFinalCmd, genCurlCmd_fst, genCurl_foldl_snd order _ hnot]
    simp
  rw [hcmd]
  refine ⟨rfl, by simp [Nat.add_assoc], ?_, by simp⟩
  rw [List.append_assoc, List.take_left']
  rfl

theorem mainFinalCmd_without_url_witness :
    parseArgs ["jerry-curl", "-H", "X: 1"] = Outcome.ret ([], ["-H", "X: 1"]) ∧
      ("-u" ∉ ["jerry-curl", "-H", "X: 1"] ∧ "--url-path" ∉ ["jerry-curl", "-H", "X: 1"]) ∧
      ["--insecure"] ++ List.map requote ["-H", "X: 1"] ++ ["http://example.test"] =
        ["--insecure", "-H", "X: 1", "http://example.test"] ∧
      (mainFinalCmd ["--insecure"] (genCurlCmd [] ["-H", "X: 1"] "http://example.test").1 =
          ["--insecure"] ++ List.map requote ["-H", "X: 1"] ++ ["http://example.test"] ∧
        (mainFinalCmd ["--insecure"]
          (genCurlCmd [] ["-H", "X: 1"] "http://example.test").1).length =
            ["--insecure"].length + ["-H", "X: 1"].length + 1 ∧
        (mainFinalCmd ["--insecure"]
          (genCurlCmd [] ["-H", "X: 1"] "http://example.test").1).take ["--insecure"].length =
            ["--insecure"] ∧
        (mainFinalCmd ["--insecure"]
          (genCurlCmd [] ["-H", "X: 1"] "http://example.test").1).getLast? =
            some "http://example.test") :=
  ⟨by decide, by decide, by decide,
    mainFinalCmd_without_url ["jerry-curl", "-H", "X: 1"] [] ["-H", "X: 1"] (by decide)
      (by decide) [] (List.Perm.refl _) ["--insecure"] ["-H", "X: 1"] "http://example.test"⟩

/-- C8: when `parseArgs` returns, `genCurlCmd` applied to the wrapper options it produced
(in any iteration order of the map, with any pass-through list and base) returns
`showOnly = true` if and only if the argument list contains a `-s` or `--show` token. -/
theorem genCurlCmd_showOnly_iff (args : List String) (jerry : List (Nat × String))
    (curl : List String) (hret : parseArgs args = Outcome.ret (jerry, curl))
    (order : List (Nat × String)) (hperm : order.Perm jerry) (P : List String) (b : String) :
    (genCurlCmd order P b).2 = true ↔ ("-s" ∈ args ∨ "--show" ∈ args) := by
  have hj := parseArgs_jerryArgs args jerry curl hret
  rw [genCurlCmd_snd]
  have h1 : (∃ e ∈ order, showTest e.2) ↔ ∃ e ∈ jerryFrom args 0, showTest e.2 := by
    constructor
    · rintro ⟨e, he, ht⟩
      exact ⟨e, hj ▸ hperm.mem_iff.1 he, ht⟩
    · rintro ⟨e, he, ht⟩
      exact ⟨e, hperm.mem_iff.2 (hj ▸ he), ht⟩
  rw [h1, jerryFrom_showTest]
  constructor
  · rintro ⟨a, ha, hs⟩
    simp only [isShowOpt, decide_eq_true_eq] at hs
    rcases hs with h | h
    · exact Or.inl (h ▸ ha)
    · exact Or.inr (h ▸ ha)
  · rintro (h | h)
    · exact ⟨"-s", h, by decide⟩
    · exact ⟨"--show", h, by decide⟩

theorem genCurlCmd_showOnly_iff_witness :
    parseArgs ["jerry-curl", "-c", "my.cfg", "--show", "-u", "/x"] =
        Outcome.ret ([(1, "-c my.cfg"), (3, "--show"), (4, "-u /x")], []) ∧
      List.Perm [(4, "-u /x"), (3, "--show"), (1, "-c my.cfg")]
        [(1, "-c my.cfg"), (3, "--show"), (4, "-u /x")] ∧
      (genCurlCmd [(4, "-u /x"), (3, "--show"), (1, "-c my.cfg")] [] "http://example.test").2
        = true ∧
      ((genCurlCmd [(4, "-u /x"), (3, "--show"), (1, "-c my.cfg")] [] "http://example.test").2
          = true ↔
        ("-s" ∈ ["jerry-curl", "-c", "my.cfg", "--show", "-u", "/x"] ∨
          "--show" ∈ ["jerry-curl", "-c", "my.cfg", "--show", "-u", "/x"])) :=
  ⟨by decide, by decide, by decide,
    genCurlCmd_showOnly_iff _ [(1, "-c my.cfg"), (3, "--show"), (4, "-u /x")] [] (by decide) _
      (by decide) [] "http://example.test"⟩

/-- C9: for every pass-through token `t` given to `genCurlCmd` (at position `i` of the
pass-through list), the output entry at the same position is `t` wrapped in single quotes
when `t` contains a double-quote character, and `t` unchanged otherwise. -/
theorem genCurlCmd_requotes (jerry : List (Nat × String)) (curl : List String) (base : String)
    (i : Nat) (t : String) (ht : curl[i]? = some t) :
    (genCurlCmd jerry curl base).1[i]? =
      some (if '"' ∈ t.data then "'" ++ t ++ "'" else t) := by
  have hi : i < curl.length := by
    by_contra hge
    rw [List.getElem?_eq_none (by omega)] at ht
    cases ht
  rw [genCurlCmd_fst, List.getElem?_append_left (by simpa using hi), List.getElem?_map, ht]
  rfl

theorem genCurlCmd_requotes_witness :
    ["-H", "X: \"quoted\""][1]? = some "X: \"quoted\"" ∧
      (if '"' ∈ "X: \"quoted\"".data then "'" ++ "X: \"quoted\"" ++ "'" else "X: \"quoted\"") =
        "'X: \"quoted\"'" ∧
      (genCurlCmd [] ["-H", "X: \"quoted\""] "http://example.test").1[1]? =
        some (if '"' ∈ "X: \"quoted\"".data then "'" ++ "X: \"quoted\"" ++ "'"
          else "X: \"quoted\"") :=
  ⟨by decide, by decide, genCurlCmd_requotes [] _ "http://example.test" 1 _ (by decide)⟩

/-! ## Facts about `readConfig` -/

theorem readString_line (l rest : List Char) (hl : '\n' ∉ l) :
    readString (l ++ '\n' :: rest) = ((l ++ ['\n'], true), rest) := by
  induction l with
  | nil => simp [readString]
  | cons c cs ih =>
    have hc : c ≠ '\n' := fun h => hl (h ▸ List.mem_cons_self _ _)
    have hcs : '\n' ∉ cs := fun h => hl (List.mem_cons_of_mem _ h)
    simp [readString, hc, ih hcs]

theorem readString_eof (l : List Char) (hl : '\n' ∉ l) : readString l = ((l, false), []) := by
  induction l with
  | nil => simp [readString]
  | cons c cs ih =>
    have hc : c ≠ '\n' := fun h => hl (h ▸ List.mem_cons_self _ _)
    have hcs : '\n' ∉ cs := fun h => hl (List.mem_cons_of_mem _ h)
    simp [readString, hc, ih hcs]

theorem configText_data_cons (l : String) (ls : List String) :
    (configText (l :: ls)).data = l.data ++ '\n' :: (configText ls).data := by
  simp [configText, String.data_append]

theorem configText_length (ls : List String) : ls.length ≤ (configText ls).data.length := by
  induction ls with
  | nil => simp
  | cons l ls ih =>
    rw [configText_data_cons]
    simp only [List.length_cons, List.length_append]
    omega

/-- The loop of `readConfig` handles, one after the other, the lines that end with a
newline, and stops at the text left after the last newline without handling it. -/
theorem readConfigLoop_lines (ls : List String) (tail : List Char) (fuel : Nat)
    (st : String × List String) (hls : ∀ l ∈ ls, '\n' ∉ l.data) (ht : '\n' ∉ tail)
    (hf : ls.length < fuel) :
    readConfigLoop fuel ((configText ls).data ++ tail) st =
      some ((ls.map (fun l => l ++ "\n")).foldl readConfigLine st) := by
  induction ls generalizing fuel st with
  | nil =>
    cases fuel with
    | zero => simp at hf
    | succ fuel => simp [configText, readConfigLoop, readString_eof tail ht]
  | cons l ls ih =>
    cases fuel with
    | zero => simp at hf
    | succ fuel =>
      have hl : '\n' ∉ l.data := hls l (List.mem_cons_self _ _)
      have hls' : ∀ x ∈ ls, '\n' ∉ x.data := fun x hx => hls x (List.mem_cons_of_mem _ hx)
      rw [configText_data_cons, List.append_assoc, List.cons_append, readConfigLoop,
        readString_line _ _ hl]
      simp only
      rw [ih fuel _ hls' (by simpa using hf)]
      simp only [List.map_cons, List.foldl_cons]
      have : (⟨l.data ++ ['\n']⟩ : String) = l ++ "\n" := by
        apply String.ext
        simp [String.data_append]
      rw [this]

theorem isPrefixOf_concat_newline (p l : List Char) (hp : '\n' ∉ p) :
    p.isPrefixOf (l ++ ['\n']) = p.isPrefixOf l := by
  rw [Bool.eq_iff_iff, List.isPrefixOf_iff_prefix, List.isPrefixOf_iff_prefix,
    List.prefix_concat_iff]
  constructor
  · rintro (h | h)
    · exact absurd (h ▸ (by simp : '\n' ∈ l ++ ['\n'])) hp
    · exact h
  · exact Or.inr

theorem trimRight_line (l : List Char) (hl : '\n' ∉ l) :
    stringsTrimRight ⟨l ++ ['\n']⟩ "\n" = ⟨l⟩ := by
  have hdata : "\n".data = ['\n'] := rfl
  unfold stringsTrimRight
  simp only [hdata]
  rw [List.rdropWhile_concat_pos _ _ _ (by simp), List.rdropWhile_eq_self_iff.2]
  intro hne hlast
  apply hl
  have hmem := List.getLast_mem hne
  have hlast' : l.getLast hne = '\n' := by simpa using hlast
  rw [hlast'] at hmem
  exact hmem

/-- What the loop body of `readConfig` does with one newline-terminated line. -/
theorem readConfigLine_line (st : String × List String) (l : String) (hl : '\n' ∉ l.data) :
    readConfigLine st (l ++ "\n") =
      if "#".data.isPrefixOf l.data then st
      else if "BASE=".data.isPrefixOf l.data then (⟨l.data.drop 5⟩, st.2)
      else (st.1, st.2 ++ [l]) := by
  have hdata : (l ++ "\n").data = l.data ++ ['\n'] := by simp [String.data_append]
  have hstr : l ++ "\n" = ⟨l.data ++ ['\n']⟩ := String.ext hdata
  have hhash : stringsIndex (l ++ "\n") "#" = 0 ↔ "#".data.isPrefixOf l.data = true := by
    rw [stringsIndex_eq_zero_iff, hdata, isPrefixOf_concat_newline _ _ (by decide)]
  have hbase : stringsIndex (l ++ "\n") "BASE=" = 0 ↔ "BASE=".data.isPrefixOf l.data = true := by
    rw [stringsIndex_eq_zero_iff, hdata, isPrefixOf_concat_newline _ _ (by decide)]
  unfold readConfigLine
  by_cases h1 : "#".data.isPrefixOf l.data = true
  · simp [hhash.2 h1, h1]
  · have h1' : ¬ stringsIndex (l ++ "\n") "#" = 0 := fun h => h1 (hhash.1 h)
    simp only [ne_eq, h1', not_false_eq_true, if_true, h1, Bool.false_eq_true, if_false]
    by_cases h2 : "BASE=".data.isPrefixOf l.data = true
    · have h2' := hbase.2 h2
      have hlen : 5 ≤ l.data.length := by
        have := ( List.isPrefixOf_iff_prefix.1 h2).length_le
        simpa using this
      have hdrop : sliceFrom (l ++ "\n") 5 = ⟨l.data.drop 5 ++ ['\n']⟩ := by
        apply String.ext
        simp only [sliceFrom, hdata]
        exact List.drop_append_of_le_length hlen
      have hnl : '\n' ∉ l.data.drop 5 := fun h => hl (List.mem_of_mem_drop h)
      simp only [h2', if_true, h2, zero_add, Int.toNat_ofNat]
      rw [show (5 : ℤ).toNat = 5 from rfl, hdrop, trimRight_line _ hnl]
    · have h2' : ¬ stringsIndex (l ++ "\n") "BASE=" = 0 := fun h => h2 (hbase.1 h)
      simp only [h2', if_false, h2, Bool.false_eq_true]
      rw [hstr, trimRight_line _ hl]

theorem readConfig_foldl (ls : List String) (st : String × List String)
    (hls : ∀ l ∈ ls, '\n' ∉ l.data) :
    (ls.map (fun l => l ++ "\n")).foldl readConfigLine st =
      ((match (ls.filter (fun l => "BASE=".data.isPrefixOf l.data)).getLast? with
        | some l => ⟨l.data.drop 5⟩
        | none => st.1), st.2 ++ specExtras ls) := by
  induction ls generalizing st with
  | nil => simp [specExtras]
  | cons l ls ih =>
    have hl : '\n' ∉ l.data := hls l (List.mem_cons_self _ _)
    have hls' : ∀ x ∈ ls, '\n' ∉ x.data := fun x hx => hls x (List.mem_cons_of_mem _ hx)
    rw [List.map_cons, List.foldl_cons, ih _ hls', readConfigLine_line _ _ hl]
    by_cases h1 : "#".data.isPrefixOf l.data = true
    · have h2 : "BASE=".data.isPrefixOf l.data = false := by
        rcases l with ⟨d⟩
        cases d with
        | nil => rfl
        | cons c cs =>
          have hc : c = '#' := by
            simp only [List.isPrefixOf] at h1
            have : "#".data = ['#'] := rfl
            simp only [this, List.isPrefixOf, Bool.and_true, beq_iff_eq] at h1
            exact h1.symm
          subst hc
          rfl
      simp [specExtras, List.filter_cons, h1, h2]
    · by_cases h2 : "BASE=".data.isPrefixOf l.data = true
      · have hB : (l :: ls).filter (fun l => "BASE=".data.isPrefixOf l.data) =
            l :: ls.filter (fun l => "BASE=".data.isPrefixOf l.data) :=
          List.filter_cons_of_pos h2
        have hE : specExtras (l :: ls) = specExtras ls := by
          unfold specExtras
          exact List.filter_cons_of_neg (by simp [h2])
        rw [if_neg h1, if_pos h2, hB, hE]
        generalize ls.filter (fun l => "BASE=".data.isPrefixOf l.data) = F
        cases F with
        | nil => rfl
        | cons x xs =>
          rw [List.getLast?_cons_cons]
          obtain ⟨y, hy⟩ : ∃ y, (x :: xs).getLast? = some y :=
            ⟨_, List.getLast?_eq_getLast _ (by simp)⟩
          rw [hy]
      · simp [specExtras, List.filter_cons, h1, h2]

/-- Every text that is empty or ends with a newline is the text of a list of lines, none
of which contains a newline: `configText` reaches every configuration text in which every
line ends with a newline. -/
theorem exists_configText (s : List Char) (h : s = [] ∨ s.getLast? = some '\n') :
    ∃ ls : List String, (∀ l ∈ ls, '\n' ∉ l.data) ∧ (configText ls).data = s := by
  induction s with
  | nil => exact ⟨[], by simp, rfl⟩
  | cons c cs ih =>
    have hcs : cs = [] ∨ cs.getLast? = some '\n' := by
      cases cs with
      | nil => exact Or.inl rfl
      | cons d ds =>
        right
        rcases h with h | h
        · cases h
        · rwa [List.getLast?_cons_cons] at h
    obtain ⟨ls, hls, hdata⟩ := ih hcs
    by_cases hc : c = '\n'
    · subst hc
      refine ⟨"" :: ls, ?_, ?_⟩
      · intro l hl
        rcases List.mem_cons.1 hl with rfl | hl
        · simp
        · exact hls l hl
      · rw [configText_data_cons, hdata]
        rfl
    · cases ls with
      | nil =>
        have hnil : cs = [] := by simpa [configText] using hdata.symm
        subst hnil
        rcases h with h | h
        · cases h
        · simp at h
          exact absurd h hc
      | cons l ls =>
        refine ⟨⟨c :: l.data⟩ :: ls, ?_, ?_⟩
        · intro x hx
          rcases List.mem_cons.1 hx with rfl | hx
          · intro hmem
            rcases List.mem_cons.1 hmem with h1 | h1
            · exact hc h1.symm
            · exact hls l (List.mem_cons_self _ _) h1
          · exact hls x (List.mem_cons_of_mem _ hx)
        · rw [configText_data_cons] at hdata ⊢
          simp [← hdata]

/-- Every text is a list of newline-terminated lines followed by a last stretch without
a newline (empty when the text ends with a newline). -/
theorem exists_configText_tail (s : List Char) :
    ∃ (ls : List String) (tail : List Char),
      (∀ l ∈ ls, '\n' ∉ l.data) ∧ '\n' ∉ tail ∧ (configText ls).data ++ tail = s := by
  induction s with
  | nil => exact ⟨[], [], by simp, by simp, rfl⟩
  | cons c cs ih =>
    obtain ⟨ls, tail, hls, ht, hdata⟩ := ih
    by_cases hc : c = '\n'
    · subst hc
      refine ⟨"" :: ls, tail, ?_, ht, ?_⟩
      · intro l hl
        rcases List.mem_cons.1 hl with rfl | hl
        · simp
        · exact hls l hl
      · rw [configText_data_cons, ← hdata]
        rfl
    · cases ls with
      | nil =>
        refine ⟨[], c :: tail, by simp, ?_, ?_⟩
        · intro hmem
          rcases List.mem_cons.1 hmem with h1 | h1
          · exact hc h1.symm
          · exact ht h1
        · rw [← hdata]
          rfl
      | cons l ls =>
        refine ⟨⟨c :: l.data⟩ :: ls, tail, ?_, ht, ?_⟩
        · intro x hx
          rcases List.mem_cons.1 hx with rfl | hx
          · intro hmem
            rcases List.mem_cons.1 hmem with h1 | h1
            · exact hc h1.symm
            · exact hls l (List.mem_cons_self _ _) h1
          · exact hls x (List.mem_cons_of_mem _ hx)
        · rw [configText_data_cons] at hdata ⊢
          simp [← hdata]

/-- The result of `readConfig` on any text: the lines that end with a newline decide it,
the stretch after the last newline is read but never handled. -/
theorem readConfig_lines_tail (ls : List String) (tail : List Char)
    (hls : ∀ l ∈ ls, '\n' ∉ l.data) (ht : '\n' ∉ tail) :
    readConfig ⟨(configText ls).data ++ tail⟩ = some (specBase ls, specExtras ls) := by
  have h := readConfigLoop_lines ls tail (((configText ls).data ++ tail).length + 1) ("", [])
    hls ht (by
      have := configText_length ls
      simp only [List.length_append]
      omega)
  rw [readConfig, h, readConfig_foldl ls _ hls]
  simp [specBase]

/-- The loop of `readConfig` ends on every text: the fuel never runs out. -/
theorem readConfig_total (text : String) : ∃ r, readConfig text = some r := by
  obtain ⟨ls, tail, hls, ht, hdata⟩ := exists_configText_tail text.data
  have h := readConfig_lines_tail ls tail hls ht
  have ht' : (⟨(configText ls).data ++ tail⟩ : String) = text := String.ext hdata
  rw [ht'] at h
  exact ⟨_, h⟩

/-- C10: for every configuration text in which every line ends with a newline (the text
made of the lines `ls`), `readConfig` returns as base the text after `BASE=` of the last
line that begins with `BASE=` (the empty string when there is none) and as extras the
lines that begin with neither `#` nor `BASE=`, without their newline and otherwise
unchanged, in file order. -/
theorem readConfig_terminated_lines (ls : List String) (hls : ∀ l ∈ ls, '\n' ∉ l.data) :
    readConfig (configText ls) = some (specBase ls, specExtras ls) := by
  have h := readConfigLoop_lines ls [] ((configText ls).data.length + 1) ("", []) hls
    (by simp) (Nat.lt_succ_of_le (configText_length ls))
  rw [List.append_nil] at h
  rw [readConfig, h, readConfig_foldl ls _ hls]
  simp [specBase]

theorem readConfig_terminated_lines_witness :
    (∀ l ∈ ["# comment", "BASE=http://a.test", "--insecure", "  -H \"X: 1\" ",
        "BASE=http://example.test"], '\n' ∉ l.data) ∧
      configText ["# comment", "BASE=http://a.test", "--insecure", "  -H \"X: 1\" ",
        "BASE=http://example.test"] =
        "# comment\nBASE=http://a.test\n--insecure\n  -H \"X: 1\" \nBASE=http://example.test\n" ∧
      (specBase ["# comment", "BASE=http://a.test", "--insecure", "  -H \"X: 1\" ",
        "BASE=http://example.test"],
       specExtras ["# comment", "BASE=http://a.test", "--insecure", "  -H \"X: 1\" ",
        "BASE=http://example.test"]) =
        ("http://example.test", ["--insecure", "  -H \"X: 1\" "]) ∧
      readConfig (configText ["# comment", "BASE=http://a.test", "--insecure",
        "  -H \"X: 1\" ", "BASE=http://example.test"]) =
        some (specBase ["# comment", "BASE=http://a.test", "--insecure", "  -H \"X: 1\" ",
          "BASE=http://example.test"],
         specExtras ["# comment", "BASE=http://a.test", "--insecure", "  -H \"X: 1\" ",
          "BASE=http://example.test"]) :=
  ⟨by decide, by decide, by decide, readConfig_terminated_lines _ (by decide)⟩

/-! ## Alias collisions and acceptance by `argClash` -/

/-- C13: when the argument list contains both the short and the long spelling of one
logical option (`-c` with `--config`, `-s` with `--show`, or `-u` with `--url-path`),
`argClash` prints its error message and exits instead of returning. -/
theorem argClash_rejects_alias_pair (args : List String)
    (hpair : ("-c" ∈ args ∧ "--config" ∈ args) ∨ ("-s" ∈ args ∧ "--show" ∈ args) ∨
      ("-u" ∈ args ∧ "--url-path" ∈ args)) :
    ∃ out, argClash args = Outcome.exit out := by
  have hc : clashes args := by
    unfold clashes
    rcases hpair with ⟨h1, h2⟩ | ⟨h1, h2⟩ | ⟨h1, h2⟩
    · exact Or.inr (Or.inr (Or.inr (Or.inr (Or.inl
        ⟨List.count_pos_iff.2 h2, List.count_pos_iff.2 h1⟩))))
    · exact Or.inr (Or.inr (Or.inr (Or.inr (Or.inr (Or.inl
        ⟨List.count_pos_iff.2 h2, List.count_pos_iff.2 h1⟩)))))
    · exact Or.inr (Or.inr (Or.inr (Or.inr (Or.inr (Or.inr
        ⟨List.count_pos_iff.2 h2, List.count_pos_iff.2 h1⟩)))))
  exact ⟨_, argClash_exit_of_clashes args hc⟩

theorem argClash_rejects_alias_pair_witness :
    ("-u" ∈ ["jerry-curl", "-u", "/a", "--url-path", "/b"] ∧
        "--url-path" ∈ ["jerry-curl", "-u", "/a", "--url-path", "/b"]) ∧
      ∃ out, argClash ["jerry-curl", "-u", "/a", "--url-path", "/b"] = Outcome.exit out :=
  ⟨by decide, argClash_rejects_alias_pair _ (Or.inr (Or.inr (by decide)))⟩

/-- C14: when each of the six spellings occurs at most once and no short/long pair of one
logical option occurs together, `argClash` returns normally, and so prints nothing (its
only output is the message of the exiting branch). -/
theorem argClash_accepts (args : List String)
    (honce : ∀ opt ∈ ["-c", "--config", "-s", "--show", "-u", "--url-path"],
      args.count opt ≤ 1)
    (hc : ¬ ("-c" ∈ args ∧ "--config" ∈ args)) (hs : ¬ ("-s" ∈ args ∧ "--show" ∈ args))
    (hu : ¬ ("-u" ∈ args ∧ "--url-path" ∈ args)) :
    argClash args = Outcome.ret () := by
  apply argClash_ret_of_not_clashes
  have h1 := honce "-c" (by simp)
  have h2 := honce "--config" (by simp)
  have h3 := honce "-s" (by simp)
  have h4 := honce "-u" (by simp)
  unfold clashes
  rintro (h | h | h | h | ⟨ha, hb⟩ | ⟨ha, hb⟩ | ⟨ha, hb⟩)
  · omega
  · omega
  · omega
  · omega
  · exact hc ⟨List.count_pos_iff.1 hb, List.count_pos_iff.1 ha⟩
  · exact hs ⟨List.count_pos_iff.1 hb, List.count_pos_iff.1 ha⟩
  · exact hu ⟨List.count_pos_iff.1 hb, List.count_pos_iff.1 ha⟩

theorem argClash_accepts_witness :
    (∀ opt ∈ ["-c", "--config", "-s", "--show", "-u", "--url-path"],
        List.count opt ["prog", "-c", "cfg", "-s", "-u", "/x"] ≤ 1) ∧
      argClash ["prog", "-c", "cfg", "-s", "-u", "/x"] = Outcome.ret () :=
  ⟨by decide, argClash_accepts _ (by decide) (by decide) (by decide) (by decide)⟩

/-! ## `readConfig` on unterminated last lines, blank lines and comment-only texts -/

/-- C11 at failing inputs: a file that consists of `BASE=http://example.test` without a
final newline yields the empty base (with the newline it yields `http://example.test`),
and a final `--insecure` without a newline is not among the extras (with the newline it
is the last extra). -/
theorem readConfig_drops_unterminated_last_line :
    readConfig "BASE=http://example.test" = some ("", []) ∧
      readConfig "BASE=http://example.test\n" = some ("http://example.test", []) ∧
      readConfig "-v\n--insecure" = some ("", ["-v"]) ∧
      readConfig "-v\n--insecure\n" = some ("", ["-v", "--insecure"]) := by
  decide

/-- C12, as stated, fails: inserting an empty line before `--insecure` changes the
extras, which then contain an empty string that came from the blank line. -/
theorem readConfig_blank_line_is_an_extra :
    readConfig "--insecure\n" = some ("", ["--insecure"]) ∧
      readConfig "\n--insecure\n" = some ("", ["", "--insecure"]) ∧
      readConfig "--insecure\n" ≠ readConfig "\n--insecure\n" := by
  decide

theorem filter_base_nonblank (ls : List String) :
    (ls.filter (fun l => decide (l ≠ ""))).filter (fun l => "BASE=".data.isPrefixOf l.data) =
      ls.filter (fun l => "BASE=".data.isPrefixOf l.data) := by
  rw [List.filter_filter]
  apply List.filter_congr
  intro l _
  by_cases h : l = ""
  · subst h; decide
  · simp [h]

theorem specBase_nonblank (ls : List String) :
    specBase (ls.filter (fun l => decide (l ≠ ""))) = specBase ls := by
  unfold specBase
  rw [filter_base_nonblank]

theorem specExtras_nonblank (ls : List String) :
    (specExtras ls).filter (fun l => decide (l ≠ "")) =
      specExtras (ls.filter (fun l => decide (l ≠ ""))) := by
  unfold specExtras
  rw [List.filter_filter, List.filter_filter]
  apply List.filter_congr
  intro l _
  rw [Bool.and_comm]

theorem specExtras_count_blank (ls : List String) :
    (specExtras ls).count "" = ls.count "" := by
  unfold specExtras
  exact List.count_filter (by decide)

/-- C12, amended: on configuration texts in which every line ends with a newline,
inserting or removing empty lines (the two texts have the same non-empty lines in the
same order) changes neither the base that `readConfig` returns nor the non-empty entries
of extras and their order, and every empty line contributes exactly one empty string to
extras. -/
theorem readConfig_blank_lines (ls ls' : List String) (hls : ∀ l ∈ ls, '\n' ∉ l.data)
    (hls' : ∀ l ∈ ls', '\n' ∉ l.data)
    (hsame : ls.filter (fun l => decide (l ≠ "")) = ls'.filter (fun l => decide (l ≠ ""))) :
    ∃ base extras extras',
      readConfig (configText ls) = some (base, extras) ∧
      readConfig (configText ls') = some (base, extras') ∧
      extras.filter (fun l => decide (l ≠ "")) = extras'.filter (fun l => decide (l ≠ "")) ∧
      extras.count "" = ls.count "" ∧ extras'.count "" = ls'.count "" := by
  refine ⟨specBase ls, specExtras ls, specExtras ls', ?_, ?_, ?_, ?_, ?_⟩
  · have h := readConfig_lines_tail ls [] hls (by simp)
    rw [List.append_nil] at h
    exact h
  · have h := readConfig_lines_tail ls' [] hls' (by simp)
    rw [List.append_nil] at h
    rw [← specBase_nonblank ls, hsame, specBase_nonblank]
    exact h
  · rw [specExtras_nonblank, specExtras_nonblank, hsame]
  · exact specExtras_count_blank ls
  · exact specExtras_count_blank ls'

theorem readConfig_blank_lines_witness :
    ["--insecure", "BASE=http://example.test"].filter (fun l => decide (l ≠ "")) =
        ["", "--insecure", "", "BASE=http://example.test"].filter (fun l => decide (l ≠ "")) ∧
      readConfig (configText ["", "--insecure", "", "BASE=http://example.test"]) =
        some ("http://example.test", ["", "--insecure", ""]) ∧
      ∃ base extras extras',
        readConfig (configText ["--insecure", "BASE=http://example.test"]) =
          some (base, extras) ∧
        readConfig (configText ["", "--insecure", "", "BASE=http://example.test"]) =
          some (base, extras') ∧
        extras.filter (fun l => decide (l ≠ "")) = extras'.filter (fun l => decide (l ≠ "")) ∧
        extras.count "" = ["--insecure", "BASE=http://example.test"].count "" ∧
        extras'.count "" = ["", "--insecure", "", "BASE=http://example.test"].count "" :=
  ⟨by decide, by decide,
    readConfig_blank_lines ["--insecure", "BASE=http://example.test"]
      ["", "--insecure", "", "BASE=http://example.test"] (by decide) (by decide) (by decide)⟩

theorem comment_line_tests (l : String) (h : l.data.head? = some '#') :
    "#".data.isPrefixOf l.data = true ∧ "BASE=".data.isPrefixOf l.data = false := by
  rcases l with ⟨d⟩
  cases d with
  | nil => simp at h
  | cons c cs =>
    simp only [List.head?_cons, Option.some.injEq] at h
    subst h
    exact ⟨by simp [show "#".data = ['#'] from rfl, List.isPrefixOf],
      by simp [show "BASE=".data = ['B', 'A', 'S', 'E', '='] from rfl, List.isPrefixOf]⟩

set_option maxRecDepth 100000 in
theorem readConfig_defaultConfig : readConfig defaultConfig = some ("", []) := by
  decide

/-- C17: for every configuration text in which every line begins with `#` (the lines `ls`,
each ended by a newline, then a last stretch `tail` that is empty or an unterminated line
beginning with `#`), `readConfig` returns the empty base and no extras; in particular it
does so for the default configuration text that `createConfig` writes on first run. -/
theorem readConfig_all_comments (ls : List String) (tail : String)
    (hls : ∀ l ∈ ls, '\n' ∉ l.data ∧ l.data.head? = some '#') (ht : '\n' ∉ tail.data)
    (_htail : tail = "" ∨ tail.data.head? = some '#') :
    readConfig (configText ls ++ tail) = some ("", []) ∧
      readConfig defaultConfig = some ("", []) := by
  refine ⟨?_, readConfig_defaultConfig⟩
  have h := readConfig_lines_tail ls tail.data (fun l hl => (hls l hl).1) ht
  have htext : configText ls ++ tail = ⟨(configText ls).data ++ tail.data⟩ :=
    String.ext (by simp [String.data_append])
  rw [htext, h]
  have hB : ls.filter (fun l => "BASE=".data.isPrefixOf l.data) = [] := by
    rw [List.filter_eq_nil_iff]
    intro l hl
    simp [(comment_line_tests l (hls l hl).2).2]
  have hE : specExtras ls = [] := by
    unfold specExtras
    rw [List.filter_eq_nil_iff]
    intro l hl
    simp [(comment_line_tests l (hls l hl).2).1]
  simp only [specBase, hB, hE, List.getLast?_nil]

set_option maxRecDepth 100000 in
theorem readConfig_all_comments_witness :
    configText
        ["# Some example of items to put in this config file",
    "# ",
    "# For repeated requests to the same URL:",
    "# BASE=http://www.example.com",
    "#    NOTE:  BASE is the only config option done as a key=value pair.",
    "#           All others are simply one command line option per line.",
    "#           Make sure the line starts with \"BASE=\"",
    "# ",
    "# Proxy curl commands:",
    "# --proxy 127.0.0.1:8080 ",
    "# ",
    "# Allow insecure SSL:",
    "# --insecure",
    "#",
    "# Include headers in the output",
    "# -include",
    "# ",
    "# Set an Auth header",
    "# -H \"X-Auth-Token: 55555555-5555-5555-5555-555555555555\"",
    "#",
    "# Set accepts header ",
    "# -H \"Accept: application/json\"",
    "# ",
    "# Set content-type header",
    "# -H \"Content-Type: application/json\""] ++ "# " = defaultConfig ∧
      readConfig (configText
        ["# Some example of items to put in this config file",
    "# ",
    "# For repeated requests to the same URL:",
    "# BASE=http://www.example.com",
    "#    NOTE:  BASE is the only config option done as a key=value pair.",
    "#           All others are simply one command line option per line.",
    "#           Make sure the line starts with \"BASE=\"",
    "# ",
    "# Proxy curl commands:",
    "# --proxy 127.0.0.1:8080 ",
    "# ",
    "# Allow insecure SSL:",
    "# --insecure",
    "#",
    "# Include headers in the output",
    "# -include",
    "# ",
    "# Set an Auth header",
    "# -H \"X-Auth-Token: 55555555-5555-5555-5555-555555555555\"",
    "#",
    "# Set accepts header ",
    "# -H \"Accept: application/json\"",
    "# ",
    "# Set content-type header",
    "# -H \"Content-Type: application/json\""] ++ "# ") = some ("", []) ∧
      readConfig defaultConfig = some ("", []) :=
  ⟨by decide, readConfig_all_comments _ "# " (by decide) (by decide) (by decide)⟩

/-! ## The forms and the order documented by the help text, and the empty value -/

/-- C15 at failing inputs: the help text's own examples `--config=./my-custom-config` and
`--url-path=/app/path/here` are not recognised by `parseArgs`; no wrapper option is
recorded, each token is placed in the pass-through list, no alternate configuration file
is selected and the URL is the bare base. -/
theorem parseArgs_passes_equals_forms :
    parseArgs ["jerry-curl", "--config=./my-custom-config"] =
        Outcome.ret ([], ["--config=./my-custom-config"]) ∧
      mainNewConfig [] = "" ∧
      parseArgs ["jerry-curl", "--url-path=/app/path/here"] =
        Outcome.ret ([], ["--url-path=/app/path/here"]) ∧
      genCurlCmd [] ["--url-path=/app/path/here"] "http://example.test" =
        (["--url-path=/app/path/here", "http://example.test"], false) := by
  decide

/-- C18 at a failing input: with extras `--insecure`, pass-through `-H`, `X: 1` and base
`http://example.test` the command built in `main` ends with the URL; the URL does not come
right after the configuration-file options and before the command-line arguments. -/
theorem mainFinalCmd_url_is_last :
    mainFinalCmd ["--insecure"] (genCurlCmd [] ["-H", "X: 1"] "http://example.test").1 =
        ["--insecure", "-H", "X: 1", "http://example.test"] ∧
      mainFinalCmd ["--insecure"] (genCurlCmd [] ["-H", "X: 1"] "http://example.test").1 ≠
        ["--insecure"] ++ ["http://example.test"] ++ ["-H", "X: 1"] := by
  decide

/-- C20 at failing inputs: when the token after `-c` (or after `--url-path`) is the empty
string, `next[0]` is out of range and `parseArgs` ends in a runtime panic: it neither
returns a partition nor exits through one of its messages. -/
theorem parseArgs_panics_on_empty_value :
    parseArgs ["jerry-curl", "-c", ""] = Outcome.panic ∧
      parseArgs ["jerry-curl", "-H", "X: 1", "--url-path", "", "-v"] = Outcome.panic := by
  decide

/-! ## Iteration order of the wrapper-option map -/

theorem countP_isUrlOpt (args : List String) :
    args.countP isUrlOpt = args.count "-u" + args.count "--url-path" := by
  induction args with
  | nil => simp
  | cons a rest ih =>
    rw [List.countP_cons, List.count_cons, List.count_cons, ih]
    by_cases h1 : a = "-u"
    · subst h1; simp [isUrlOpt]; omega
    · by_cases h2 : a = "--url-path"
      · subst h2; simp [isUrlOpt]; omega
      · simp [isUrlOpt, h1, h2]

theorem jerryFrom_urlTest_unique (rest : List String) (n : Nat)
    (h : rest.countP isUrlOpt ≤ 1) :
    ∀ e1 ∈ jerryFrom rest n, ∀ e2 ∈ jerryFrom rest n,
      urlTest e1.2 → urlTest e2.2 → e1 = e2 := by
  induction rest generalizing n with
  | nil => simp [jerryFrom]
  | cons arg rest ih =>
    intro e1 he1 e2 he2 ht1 ht2
    simp only [jerryFrom, List.mem_append] at he1 he2
    rw [List.countP_cons] at h
    by_cases hu : isUrlOpt arg = true
    · have hv : isValueOpt arg = true := by simp [isValueOpt, hu]
      have h0 : rest.countP isUrlOpt = 0 := by rw [if_pos hu] at h; omega
      have hnone : ∀ a ∈ rest, isUrlOpt a = false := by
        intro a ha
        have := List.countP_eq_zero.1 h0 a ha
        simpa using this
      have hrest := jerryFrom_not_urlTest rest (n + 1) hnone
      simp only [hv, if_true, List.mem_singleton] at he1 he2
      rcases he1 with he1 | he1
      · rcases he2 with he2 | he2
        · rw [he1, he2]
        · exact absurd ht2 (hrest e2 he2)
      · exact absurd ht1 (hrest e1 he1)
    · have hu' : isUrlOpt arg = false := by simpa using hu
      have hle : rest.countP isUrlOpt ≤ 1 := by rw [if_neg hu] at h; omega
      have hhead : ∀ e ∈ (if isValueOpt arg = true then [(n, arg ++ " " ++ rest.headD "")]
          else if isShowOpt arg = true then [(n, arg)] else []), ¬ urlTest e.2 := by
        intro e he
        by_cases hc : isConfigOpt arg = true
        · simp only [isValueOpt, hc, Bool.true_or, if_true, List.mem_singleton] at he
          subst he
          exact not_urlTest_config _ _ hc
        · have hc' : isConfigOpt arg = false := by simpa using hc
          by_cases hs : isShowOpt arg = true
          · simp only [isValueOpt, hc', hu', Bool.or_self, Bool.false_eq_true, if_false, hs,
              if_true, List.mem_singleton] at he
            subst he
            exact not_urlTest_of_isShowOpt _ hs
          · simp [isValueOpt, hc', hu', hs] at he
      rcases he1 with he1 | he1
      · exact absurd ht1 (hhead e1 he1)
      · rcases he2 with he2 | he2
        · exact absurd ht2 (hhead e2 he2)
        · exact ih (n + 1) hle e1 he1 e2 he2 ht1 ht2

theorem genCurlStep_snd_pos (st : Bool × String) (arg : String) (h : urlTest arg) :
    (genCurlStep st arg).2 = stringsTrimLeft arg "-u " := by
  unfold urlTest at h
  simp [genCurlStep, h]

theorem genCurl_foldl_snd_same (order : List (Nat × String)) (st : Bool × String)
    (s : String) (hs : ∀ e ∈ order, urlTest e.2 → e.2 = s)
    (hex : ∃ e ∈ order, urlTest e.2) :
    (order.foldl (fun st e => genCurlStep st e.2) st).2 = stringsTrimLeft s "-u " := by
  induction order generalizing st with
  | nil => simp at hex
  | cons e rest ih =>
    rw [List.foldl_cons]
    have hs' : ∀ x ∈ rest, urlTest x.2 → x.2 = s :=
      fun x hx => hs x (List.mem_cons_of_mem _ hx)
    by_cases hrest : ∃ x ∈ rest, urlTest x.2
    · exact ih _ hs' hrest
    · have hnone : ∀ x ∈ rest, ¬ urlTest x.2 := fun x hx ht => hrest ⟨x, hx, ht⟩
      rw [genCurl_foldl_snd rest _ hnone]
      obtain ⟨x, hx, ht⟩ := hex
      rcases List.mem_cons.1 hx with rfl | hx
      · rw [genCurlStep_snd_pos _ _ ht, hs x (List.mem_cons_self _ _) ht]
      · exact absurd ht (hnone x hx)

theorem genCurl_path_perm (jerry o1 o2 : List (Nat × String))
    (huniq : ∀ e1 ∈ jerry, ∀ e2 ∈ jerry, urlTest e1.2 → urlTest e2.2 → e1 = e2)
    (h1 : o1.Perm jerry) (h2 : o2.Perm jerry) :
    (o1.foldl (fun st e => genCurlStep st e.2) (false, "")).2 =
      (o2.foldl (fun st e => genCurlStep st e.2) (false, "")).2 := by
  by_cases hex : ∃ e ∈ jerry, urlTest e.2
  · obtain ⟨e0, he0, ht0⟩ := hex
    have hs : ∀ o : List (Nat × String), o.Perm jerry →
        (∀ e ∈ o, urlTest e.2 → e.2 = e0.2) ∧ ∃ e ∈ o, urlTest e.2 := by
      intro o ho
      refine ⟨fun e he ht => ?_, ⟨e0, ho.mem_iff.2 he0, ht0⟩⟩
      rw [huniq e (ho.mem_iff.1 he) e0 he0 ht ht0]
    rw [genCurl_foldl_snd_same o1 _ e0.2 (hs o1 h1).1 (hs o1 h1).2,
      genCurl_foldl_snd_same o2 _ e0.2 (hs o2 h2).1 (hs o2 h2).2]
  · have hn : ∀ o : List (Nat × String), o.Perm jerry → ∀ e ∈ o, ¬ urlTest e.2 :=
      fun o ho e he ht => hex ⟨e, ho.mem_iff.1 he, ht⟩
    rw [genCurl_foldl_snd o1 _ (hn o1 h1), genCurl_foldl_snd o2 _ (hn o2 h2)]

theorem not_clashes_of_argClash_ret (args : List String) (h : argClash args = Outcome.ret ()) :
    ¬ clashes args := by
  intro hc
  rw [argClash_exit_of_clashes args hc] at h
  cases h

/-- C19, as stated, fails: `argClash` accepts `--url-path` given twice, `parseArgs` records
both occurrences, and `genCurlCmd` then returns a different command for the two iteration
orders of the map. -/
theorem genCurlCmd_depends_on_order :
    argClash ["jerry-curl", "--url-path", "/a", "--url-path", "/b"] = Outcome.ret () ∧
      parseArgs ["jerry-curl", "--url-path", "/a", "--url-path", "/b"] =
        Outcome.ret ([(1, "--url-path /a"), (3, "--url-path /b")], []) ∧
      List.Perm [(3, "--url-path /b"), (1, "--url-path /a")]
        [(1, "--url-path /a"), (3, "--url-path /b")] ∧
      genCurlCmd [(1, "--url-path /a"), (3, "--url-path /b")] [] "http://example.test" ≠
        genCurlCmd [(3, "--url-path /b"), (1, "--url-path /a")] [] "http://example.test" := by
  decide

/-- C19, amended: for every argument list that `argClash` accepts, that `parseArgs` parses
and in which `--url-path` occurs at most once, the result of `genCurlCmd` (the command and
the show-only flag) is the same for every iteration order of the wrapper-option map. -/
theorem genCurlCmd_order_independent (args : List String) (jerry : List (Nat × String))
    (curl : List String) (hclash : argClash args = Outcome.ret ())
    (hret : parseArgs args = Outcome.ret (jerry, curl))
    (hone : args.count "--url-path" ≤ 1)
    (o1 o2 : List (Nat × String)) (h1 : o1.Perm jerry) (h2 : o2.Perm jerry)
    (P : List String) (b : String) :
    genCurlCmd o1 P b = genCurlCmd o2 P b := by
  have hj := parseArgs_jerryArgs args jerry curl hret
  have hnc := not_clashes_of_argClash_ret args hclash
  have hcount : args.countP isUrlOpt ≤ 1 := by
    rw [countP_isUrlOpt]
    unfold clashes at hnc
    simp only [not_or, not_and, not_le] at hnc
    obtain ⟨-, -, -, hu, -, -, hboth⟩ := hnc
    omega
  have huniq := jerryFrom_urlTest_unique args 0 hcount
  rw [← hj] at huniq
  have hpath := genCurl_path_perm jerry o1 o2 huniq h1 h2
  have hshow : (genCurlCmd o1 P b).2 = (genCurlCmd o2 P b).2 := by
    rw [Bool.eq_iff_iff, genCurlCmd_snd, genCurlCmd_snd]
    constructor
    · rintro ⟨e, he, ht⟩
      exact ⟨e, h2.mem_iff.2 (h1.mem_iff.1 he), ht⟩
    · rintro ⟨e, he, ht⟩
      exact ⟨e, h1.mem_iff.2 (h2.mem_iff.1 he), ht⟩
  apply Prod.ext
  · rw [genCurlCmd_fst, genCurlCmd_fst, hpath]
  · exact hshow

theorem genCurlCmd_order_independent_witness :
    argClash ["jerry-curl", "-c", "my.cfg", "--show", "-u", "/x"] = Outcome.ret () ∧
      parseArgs ["jerry-curl", "-c", "my.cfg", "--show", "-u", "/x"] =
        Outcome.ret ([(1, "-c my.cfg"), (3, "--show"), (4, "-u /x")], []) ∧
      List.count "--url-path" ["jerry-curl", "-c", "my.cfg", "--show", "-u", "/x"] ≤ 1 ∧
      genCurlCmd [(4, "-u /x"), (3, "--show"), (1, "-c my.cfg")] ["-v"] "http://example.test" =
        (["-v", "http://example.test/x"], true) ∧
      genCurlCmd [(4, "-u /x"), (3, "--show"), (1, "-c my.cfg")] ["-v"] "http://example.test" =
        genCurlCmd [(3, "--show"), (1, "-c my.cfg"), (4, "-u /x")] ["-v"]
          "http://example.test" :=
  ⟨by decide, by decide, by decide, by decide,
    genCurlCmd_order_independent ["jerry-curl", "-c", "my.cfg", "--show", "-u", "/x"]
      [(1, "-c my.cfg"), (3, "--show"), (4, "-u /x")] [] (by decide) (by decide) (by decide)
      _ _ (by decide) (by decide) ["-v"] "http://example.test"⟩

/-! ## The place of `argClash` in `main` -/

theorem curlCheck_events (env : Env) : (curlCheck env).1 = [Event.lookPath "curl"] := rfl

theorem createConfig_all (env : Env) :
    (createConfig env).1.all (fun e => !e.isReadOrStart) = true := by
  unfold createConfig
  simp only
  split_ifs <;> rfl

theorem createConfig_no_read_no_start (env : Env) :
    ∀ e ∈ (createConfig env).1, e.isReadOrStart = false := by
  intro e he
  have h := List.all_eq_true.1 (createConfig_all env) e he
  simpa using h

theorem mainBeforeClash_no_read_no_start (env : Env) :
    ∀ e ∈ (mainBeforeClash env).1, e.isReadOrStart = false := by
  intro e he
  unfold mainBeforeClash andThen at he
  rw [curlCheck_events] at he
  cases hl : env.lookPath "curl" with
  | none =>
    simp only [curlCheck, hl] at he
    simp only [List.mem_singleton] at he
    subst he; rfl
  | some path =>
    simp only [curlCheck, hl] at he
    cases hc : (createConfig env).2 with
    | ret u =>
      simp only [hc, List.append_nil, List.mem_append, List.mem_singleton] at he
      rcases he with he | he
      · subst he; rfl
      · exact createConfig_no_read_no_start env e he
    | exit out =>
      simp only [hc, List.mem_append, List.mem_singleton] at he
      rcases he with he | he
      · subst he; rfl
      · exact createConfig_no_read_no_start env e he
    | panic =>
      simp only [hc, List.mem_append, List.mem_singleton] at he
      rcases he with he | he
      · subst he; rfl
      · exact createConfig_no_read_no_start env e he

set_option maxRecDepth 100000 in
/-- C16, as stated, fails: on a first run with the rejected arguments `-c a -c b`, `main`
has looked up curl and has stat-ed, created and written the configuration file by the
time `argClash` rejects the invocation. -/
theorem main_touches_files_before_argClash :
    argClash ["jerry-curl", "-c", "a", "-c", "b"] ≠ Outcome.ret () ∧
      (main firstRunEnv ["jerry-curl", "-c", "a", "-c", "b"]).1 =
        [Event.lookPath "curl", Event.getenv "HOME",
          Event.stat "/home/u/.jerry-curl/jerry-curl.config", Event.stat "/home/u/.jerry-curl",
          Event.mkdir "/home/u/.jerry-curl",
          Event.writeFile "/home/u/.jerry-curl/jerry-curl.config" defaultConfig] := by
  decide

/-- C16, amended: in `main` the collision check runs after `curlCheck` and `createConfig`
and before everything else (`parseArgs`, the configuration read, the start of curl): an
invocation that `argClash` rejects with the text `out` performs exactly the interactions
of `curlCheck` and `createConfig`, among them there is no read of a configuration file and
no start of a process, and when `curlCheck` and `createConfig` return the process ends
with the exit of `argClash` and its text `out` (so `parseArgs` has not run; when one of
the two exits, the process ends there). -/
theorem main_rejected_no_read_no_start (env : Env) (args : List String) (out : String)
    (hrej : argClash args = Outcome.exit out) :
    (main env args).1 = (mainBeforeClash env).1 ∧
      (∀ e ∈ (main env args).1, e.isReadOrStart = false) ∧
      (main env args).2 =
        (match (mainBeforeClash env).2 with
          | Outcome.ret _ => Outcome.exit out
          | Outcome.exit o => Outcome.exit o
          | Outcome.panic => Outcome.panic) := by
  have htrace : (main env args).1 = (mainBeforeClash env).1 := by
    unfold main
    cases hb : (mainBeforeClash env).2 with
    | ret curl => simp [andThen, hb, hrej]
    | exit o => simp [andThen, hb]
    | panic => simp [andThen, hb]
  refine ⟨htrace, ?_, ?_⟩
  · rw [htrace]
    exact mainBeforeClash_no_read_no_start env
  · unfold main
    cases hb : (mainBeforeClash env).2 with
    | ret curl => simp [andThen, hb, hrej]
    | exit o => simp [andThen, hb]
    | panic => simp [andThen, hb]

set_option maxRecDepth 100000 in
theorem main_rejected_no_read_no_start_witness :
    argClash ["jerry-curl", "-c", "-c"] =
        Outcome.exit ("Error(s):\n\t* Option -c used twice and is ambiguous." ++
          "\n\t  If you want the curl version, use --cookie-jar <file name> instead\n") ∧
      parseArgs ["jerry-curl", "-c", "-c"] = Outcome.exit (configErr "-c") ∧
      (main firstRunEnv ["jerry-curl", "-c", "-c"]).2 =
        Outcome.exit ("Error(s):\n\t* Option -c used twice and is ambiguous." ++
          "\n\t  If you want the curl version, use --cookie-jar <file name> instead\n") ∧
      ((main firstRunEnv ["jerry-curl", "-c", "-c"]).1 = (mainBeforeClash firstRunEnv).1 ∧
        (∀ e ∈ (main firstRunEnv ["jerry-curl", "-c", "-c"]).1, e.isReadOrStart = false) ∧
        (main firstRunEnv ["jerry-curl", "-c", "-c"]).2 =
          (match (mainBeforeClash firstRunEnv).2 with
            | Outcome.ret _ =>
              Outcome.exit ("Error(s):\n\t* Option -c used twice and is ambiguous." ++
                "\n\t  If you want the curl version, use --cookie-jar <file name> instead\n")
            | Outcome.exit o => Outcome.exit o
            | Outcome.panic => Outcome.panic)) :=
  ⟨by decide, by decide, by decide,
    main_rejected_no_read_no_start firstRunEnv ["jerry-curl", "-c", "-c"] _ (by decide)⟩

end JerryCurl
